import Mathlib

/-!
# Verification development for `examples/prettyprint.cc` (sigil-gumbo)

A shallow embedding of the pretty-printer: `std::string` values are lists of
characters, `std::string::npos` is `none`, a C++ exception (or an exhausted
loop budget) is `none` in `Option`, and `int` is `Int`.

The external parser API used by the printer (`gumbo_normalized_tagname`,
`gumbo_tag_from_original_text`, `gumbo_normalize_svg_tagname`) is not part of
the file; its results are carried as fields of the element record.

The escaping loops of `replace_all` take a loop budget (`fuel`); `text_bound`
gives a budget that is enough for a whole tree. For the statements on depth
and indentation, `prettyprint_traced` is the printer with a log of its
recursive calls; it is proved to return the text of `prettyprint`, and its log
to be the list `prettyprint_calls`.
-/

namespace Prettyprint

/-- A `std::string`: a sequence of characters. -/
abbrev Str := List Char

/-- The double quote character. -/
def DQUOTE : Char := Char.ofNat 34

/-- The single quote character. -/
def SQUOTE : Char := Char.ofNat 39

/-- The newline character. -/
def NEWLINE : Char := Char.ofNat 10

/-- The NUL character that terminates every C string buffer. -/
def NUL : Char := Char.ofNat 0

/-! ## Classification tables (lines 28-62) -/

def nonbreaking_inline : List Str :=
  ["a", "abbr", "acronym", "b", "bdo", "big", "br", "button", "cite", "code", "del",
   "dfn", "em", "font", "i", "image", "img", "input", "ins", "kbd", "label", "map",
   "nobr", "object", "q", "s", "samp", "select", "small", "span", "strike", "strong",
   "sub", "sup", "textarea", "tt", "u", "var", "wbr"].map String.toList

def preserve_whitespace : List Str :=
  ["pre", "textarea", "script", "style"].map String.toList

def special_handling : List Str :=
  ["html", "body"].map String.toList

def no_entity_sub : List Str :=
  ["script", "style"].map String.toList

def empty_tags : List Str :=
  ["area", "base", "basefont", "bgsound", "br", "command", "col", "embed",
   "event-source", "frame", "hr", "image", "img", "input", "keygen", "link",
   "menuitem", "meta", "param", "source", "spacer", "track", "wbr"].map String.toList

def structural_tags : List Str :=
  ["article", "aside", "blockquote", "body", "canvas", "div", "dl", "figure",
   "footer", "head", "header", "hr", "html", "ol", "section", "script", "style",
   "table", "ul"].map String.toList

/-- Membership test `s.find(key) != s.end()`. -/
def in_set (s : List Str) (key : Str) : Bool :=
  s.contains key

/-! ## `std::string` primitives used by the printer -/

/-- Scan for the first occurrence of `t` in the remaining text, `i` being the
index of the first remaining character. -/
def find_aux (t : Str) : Str → Nat → Option Nat
  | [], i => if t.isPrefixOf [] then some i else none
  | c :: s, i => if t.isPrefixOf (c :: s) then some i else find_aux t s (i + 1)

/-- The call `s.find(t, pos)`: the lowest index `i ≥ pos` at which `t` occurs in
`s`, or `none` for `npos`. -/
def find (s t : Str) (pos : Nat) : Option Nat :=
  if pos ≤ s.length then find_aux t (s.drop pos) pos else none

/-- The call `s.replace(pos, len, s2)` for `pos ≤ s.size()` (it is only called
with a position returned by `find`). -/
def replace (s : Str) (pos len : Nat) (s2 : Str) : Str :=
  s.take pos ++ s2 ++ s.drop (pos + len)

/-- Index of the first character, counted from `i`, that is not in `chars`. -/
def find_first_not_of_aux (chars : Str) : Str → Nat → Option Nat
  | [], _ => none
  | c :: s, i => if chars.contains c then find_first_not_of_aux chars s (i + 1) else some i

/-- The call `s.find_first_not_of(chars)`. -/
def find_first_not_of (s chars : Str) : Option Nat :=
  find_first_not_of_aux chars s 0

/-- The call `s.find_last_not_of(chars)`: the scan runs from the back. -/
def find_last_not_of (s chars : Str) : Option Nat :=
  (find_first_not_of_aux chars s.reverse 0).map (fun k => s.length - 1 - k)

/-- The whitespace characters of `rtrim` and `ltrim`: `" \n\r\t\v\f"`. -/
def WHITESPACE_CHARS : Str := " \n\r\t\x0b\x0c".toList

/-- Lines 74-77: `s.erase(s.find_last_not_of(...)+1)`; `npos + 1` wraps to `0`. -/
def rtrim (s : Str) : Str :=
  match find_last_not_of s WHITESPACE_CHARS with
  | some i => s.take (i + 1)
  | none => s.take 0

/-- Lines 80-83: `s.erase(0, s.find_first_not_of(...))`; a count of `npos`
erases the whole string. -/
def ltrim (s : Str) : Str :=
  match find_first_not_of s WHITESPACE_CHARS with
  | some i => s.drop i
  | none => []

/-- The `while` loop of `replace_all` (lines 107-110). `pos` is the current
value of the loop variable; the first argument bounds the number of
iterations, and `none` is returned when the bound is used up. -/
def replace_all_loop (t1 s2 : Str) : Nat → Str → Option Nat → Option Str
  | _, s, none => some s
  | 0, _, some _ => none
  | fuel + 1, s, some pos =>
      let s1 := replace s pos t1.length s2
      replace_all_loop t1 s2 fuel s1 (find s1 t1 (pos + t1.length))

/-- Lines 102-111: replace the occurrences of `s1` in `s` by `s2`, resuming the
search `s1.length()` characters after each replaced position. -/
def replace_all (fuel : Nat) (s s1 s2 : Str) : Option Str :=
  replace_all_loop s1 s2 fuel s (find s s1 0)

/-- Lines 114-122. -/
def substitute_xml_entities_into_text (fuel : Nat) (text : Str) : Option Str := do
  let result := text
  -- replacing & must come first
  let result ← replace_all fuel result "&".toList "&amp;".toList
  let result ← replace_all fuel result "<".toList "&lt;".toList
  let result ← replace_all fuel result ">".toList "&gt;".toList
  pure result

/-- Lines 125-135. -/
def substitute_xml_entities_into_attributes (fuel : Nat) (quote : Char) (text : Str) :
    Option Str := do
  let result ← substitute_xml_entities_into_text fuel text
  if quote = DQUOTE then
    replace_all fuel result [DQUOTE] "&quot;".toList
  else if quote = SQUOTE then
    replace_all fuel result [SQUOTE] "&apos;".toList
  else
    pure result

/-! ## The parse tree (the parts of `gumbo.h` the printer reads) -/

/-- The enumeration `GumboAttributeNamespaceEnum`, in its declared order. -/
inductive GumboAttributeNamespaceEnum where
  | NONE
  | XLINK
  | XML
  | XMLNS
  deriving DecidableEq

/-- The enumeration `GumboNamespaceEnum`. -/
inductive GumboNamespaceEnum where
  | HTML
  | SVG
  | MATHML
  deriving DecidableEq

/-- A `GumboStringPiece`: `data` is the content of the source buffer from the
pointer on (the buffer ends with a NUL), `length` the length of the piece. -/
structure GumboStringPiece where
  data : Str
  length : Nat
  deriving DecidableEq

/-- The byte `piece.data[0]`. -/
def GumboStringPiece.data0 (p : GumboStringPiece) : Char :=
  p.data.headD NUL

/-- The fields of `GumboAttribute` read by the printer. -/
structure GumboAttribute where
  attr_namespace : GumboAttributeNamespaceEnum
  name : Str
  value : Str
  original_value : GumboStringPiece
  deriving DecidableEq

/-- The fields of `GumboElement` read by the printer, the children apart.
`normalized_tagname` is the value of `gumbo_normalized_tagname(tag)`,
`original_tag` is the piece left by `gumbo_tag_from_original_text`, and
`svg_tagname` is the value of `gumbo_normalize_svg_tagname` on that piece
(`none` for `NULL`, else the bytes at the returned pointer). -/
structure GumboElement where
  normalized_tagname : Str
  tag_namespace : GumboNamespaceEnum
  original_tag : GumboStringPiece
  svg_tagname : Option Str
  attributes : List GumboAttribute

/-- The fields of `GumboDocument` read by the printer, the children apart. -/
structure GumboDocument where
  has_doctype : Bool
  name : Str
  public_identifier : Str
  system_identifier : Str

/-- A `GumboNode`, one constructor per `GumboNodeType`. -/
inductive GumboNode where
  | document (d : GumboDocument) (children : List GumboNode)
  | element (e : GumboElement) (children : List GumboNode)
  | text (s : Str)
  | cdata (s : Str)
  | comment (s : Str)
  | whitespace (s : Str)
  | template (e : GumboElement) (children : List GumboNode)

/-- The vector `node->v.element.children` (for a document node the same
storage is `v.document.children`). -/
def GumboNode.children : GumboNode → List GumboNode
  | .document _ cs => cs
  | .element _ cs => cs
  | .template _ cs => cs
  | _ => []

/-! ## Tag names, doctype and attributes (lines 138-240) -/

/-- Lines 151-173 of `get_tag_name`: the name of an element or template node. -/
def get_element_tag_name (e : GumboElement) : Str :=
  let tagname := e.normalized_tagname
  if tagname.isEmpty || e.tag_namespace = GumboNamespaceEnum.SVG then
    let gsp := e.original_tag
    match (if e.tag_namespace = GumboNamespaceEnum.SVG then e.svg_tagname else none) with
    | some data => data.take gsp.length
    | none =>
      if tagname.isEmpty then gsp.data.take gsp.length
      else tagname
  else tagname

/-- Lines 138-174. A comment node is not dispatched on and would be read
through the element arm of the union; it has no defined name (`none`). -/
def get_tag_name : GumboNode → Option Str
  | .document _ _ => some "#document".toList
  | .text _ => some "#text".toList
  | .whitespace _ => some "#text".toList
  | .cdata _ => some "#cdata".toList
  | .comment _ => none
  | .element e _ => some (get_element_tag_name e)
  | .template e _ => some (get_element_tag_name e)

/-- Lines 177-194. -/
def build_doctype (d : GumboDocument) : Str :=
  let results : Str := []
  if d.has_doctype then
    let results := results ++ "<!DOCTYPE ".toList
    let results := results ++ d.name
    let results :=
      if !d.public_identifier.isEmpty then
        results ++ " PUBLIC \"".toList ++ d.public_identifier ++ "\"\n    \"".toList
          ++ d.system_identifier ++ "\"".toList
      else results
    results ++ ">\n".toList
  else results

/-- Line 71: the prefix table, indexed by the namespace enumeration. -/
def attribute_nsprefixes : GumboAttributeNamespaceEnum → Str
  | .NONE => "".toList
  | .XLINK => "xlink:".toList
  | .XML => "xml:".toList
  | .XMLNS => "xmlns:".toList

/-- Lines 198-207. -/
def get_attribute_name (attr : GumboAttribute) : Str :=
  let attr_name := attr.name
  let attr_ns := attr.attr_namespace
  if attr_ns = GumboAttributeNamespaceEnum.NONE ∨ attr_name = "xmlns".toList then attr_name
  else attribute_nsprefixes attr_ns ++ attr_name

/-- The quote character and the wrapper string chosen by lines 218-229. -/
def attribute_quote (attr : GumboAttribute) : Char × Str :=
  let attvalue := attr.value
  let quote := DQUOTE
  let qs := [DQUOTE]
  if !attvalue.isEmpty || attr.original_value.data0 = DQUOTE
      || attr.original_value.data0 = SQUOTE then
    let quote := attr.original_value.data0
    let qs := if quote = SQUOTE then [SQUOTE] else qs
    let qs := if quote = DQUOTE then [DQUOTE] else qs
    (quote, qs)
  else (quote, qs)

/-- Lines 210-240. -/
def build_attributes (fuel : Nat) (attr : GumboAttribute) (no_entities : Bool) :
    Option Str := do
  let atts := " ".toList
  let name := get_attribute_name attr
  let atts := atts ++ name
  let attvalue := attr.value
  let (quote, qs) := attribute_quote attr
  let atts := atts ++ "=".toList
  let atts := atts ++ qs
  let atts ←
    if no_entities then pure (atts ++ attvalue)
    else do
      let v ← substitute_xml_entities_into_attributes fuel quote attvalue
      pure (atts ++ v)
  pure (atts ++ qs)

/-- Lines 341-345: the loop that appends the rendering of every attribute to
`atts`. -/
def build_attr_string (fuel : Nat) (no_entities : Bool) :
    List GumboAttribute → Str → Option Str
  | [], atts => some atts
  | attr :: rest, atts => do
      let a ← build_attributes fuel attr no_entities
      build_attr_string fuel no_entities rest (atts ++ a)

/-! ## The recursive printer (lines 247-405) -/

/-- The call `indent_chars.at(0)`, which throws on the empty string. -/
def at0 (indent_chars : Str) : Option Char :=
  indent_chars.head?

/-- The constructor `std::string(count, c)` applied to an `int` count: a
negative count converts to a huge `size_t` and the constructor throws. -/
def string_fill (count : Int) (c : Char) : Option Str :=
  if count < 0 then none else some (List.replicate count.toNat c)

/-- Lines 364-367: what `prettyprint` does to `contents` when the element is
structural. -/
def trim_structural (is_structural : Bool) (contents : Str) : Str :=
  if is_structural then
    let contents := rtrim contents
    if !contents.isEmpty then contents ++ [NEWLINE] else contents
  else contents

/-- Lines 374-404: the assembly of `results` from its parts. -/
def build_results (tagname atts close closeTag indent_space contents : Str)
    (is_inline is_structural pp_okay : Bool) : Str :=
  let last_char := if !contents.isEmpty then contents.getLastD ' ' else ' '
  let results : Str := []
  let results := if !is_inline then results ++ indent_space else results
  let results := results ++ ("<".toList ++ tagname ++ atts ++ close ++ ">".toList)
  let results :=
    if pp_okay && is_structural && !contents.isEmpty then results ++ [NEWLINE] else results
  let results := results ++ contents
  let results :=
    if pp_okay && (last_char != NEWLINE) && !contents.isEmpty && is_structural then
      results ++ [NEWLINE]
    else results
  -- handle any indent before structural close tags
  let results :=
    if !is_inline && is_structural && !closeTag.isEmpty && !contents.isEmpty then
      results ++ indent_space
    else results
  let results := results ++ closeTag
  if pp_okay then results ++ [NEWLINE] else results

mutual

/-- Lines 313-405. `parentname` is the value of `get_tag_name(node->parent)`;
the children of a node are printed with the name of that node, as the tree's
parent links say. The two calls of `prettyprint_contents` are written as its
body (the name of the node, `indent_chars.at(0)`, then the loop over the
children), so that the recursion is structural; `prettyprint_contents` itself
is defined after this block and `prettyprint_element_eq` states the body in
terms of it. The locals `in_head` and `need_special_handling` are computed
by the source and never read. The result is `none` when an exception is thrown
(`indent_chars.at(0)` on an empty indent unit, a negative fill count), when
a text node is passed, or when an escaping loop runs out of `fuel`. -/
def prettyprint (fuel : Nat) (node : GumboNode) (parentname : Str) (lvl : Int)
    (indent_chars : Str) : Option Str :=
  match node with
  | .document d children => do
      -- special case the document node
      let results := build_doctype d
      let c ← at0 indent_chars
      let contents ←
        prettyprint_contents_loop fuel "#document".toList (lvl + 1) indent_chars c 0 children []
      pure (results ++ contents)
  | .element e children | .template e children => do
      let tagname := get_element_tag_name e
      let is_empty_tag := in_set empty_tags tagname
      let no_entity_substitution := in_set no_entity_sub tagname
      let keep_whitespace := in_set preserve_whitespace tagname
      let is_inline := in_set nonbreaking_inline tagname && !in_set structural_tags parentname
      let is_structural := in_set structural_tags tagname
      let pp_okay := !is_inline && !keep_whitespace
      let c ← at0 indent_chars
      let n : Int := indent_chars.length
      -- build attr string
      let atts ← build_attr_string fuel no_entity_substitution e.attributes []
      -- determine closing tag type
      let close : Str := if is_empty_tag then "/".toList else []
      let closeTag : Str :=
        if is_empty_tag then [] else "</".toList ++ tagname ++ ">".toList
      let indent_space ← string_fill ((lvl - 1) * n) c
      -- prettyprint your contents
      let contents ←
        if is_structural && tagname != "html".toList then
          prettyprint_contents_loop fuel tagname (lvl + 1) indent_chars c 0 children []
        else
          prettyprint_contents_loop fuel tagname lvl indent_chars c 0 children []
      let contents := trim_structural is_structural contents
      -- build results
      pure (build_results tagname atts close closeTag indent_space contents
        is_inline is_structural pp_okay)
  | _ => none

/-- The `for` loop of `prettyprint_contents` (lines 261-304) for the children
from index `i` on; `tagname` is the name of the node whose children are
printed, `c` its `indent_chars.at(0)` and `contents` the text built so far. -/
def prettyprint_contents_loop (fuel : Nat) (tagname : Str) (lvl : Int) (indent_chars : Str)
    (c : Char) (i : Nat) (children : List GumboNode) (contents : Str) : Option Str :=
  match children with
  | [] => some contents
  | child :: rest =>
    match child with
    | .text s => do
        let val ←
          if in_set no_entity_sub tagname then pure s
          else substitute_xml_entities_into_text fuel s
        -- if first child of a structual element is text, indent it properly
        if i = 0 && in_set structural_tags tagname then do
          let n : Int := indent_chars.length
          let indent_space ← string_fill ((lvl - 1) * n) c
          prettyprint_contents_loop fuel tagname lvl indent_chars c (i + 1) rest
            (contents ++ indent_space ++ ltrim val)
        else
          prettyprint_contents_loop fuel tagname lvl indent_chars c (i + 1) rest
            (contents ++ val)
    | .element e cs => do
        let val ← prettyprint fuel (.element e cs) tagname lvl indent_chars
        prettyprint_contents_loop fuel tagname lvl indent_chars c (i + 1) rest (contents ++ val)
    | .template e cs => do
        let val ← prettyprint fuel (.template e cs) tagname lvl indent_chars
        prettyprint_contents_loop fuel tagname lvl indent_chars c (i + 1) rest (contents ++ val)
    | .whitespace s =>
        if in_set preserve_whitespace tagname || in_set nonbreaking_inline tagname then
          prettyprint_contents_loop fuel tagname lvl indent_chars c (i + 1) rest (contents ++ s)
        else
          prettyprint_contents_loop fuel tagname lvl indent_chars c (i + 1) rest contents
    | .cdata s =>
        prettyprint_contents_loop fuel tagname lvl indent_chars c (i + 1) rest
          (contents ++ ("<![CDATA[".toList ++ s ++ "]]>".toList))
    | .comment s =>
        prettyprint_contents_loop fuel tagname lvl indent_chars c (i + 1) rest
          (contents ++ ("<!--".toList ++ s ++ "-->".toList))
    | .document _ _ =>
        -- unknown element type: reported on stderr and skipped
        prettyprint_contents_loop fuel tagname lvl indent_chars c (i + 1) rest contents

end

/-- Lines 247-307: `prettyprint_contents(node, lvl, indent_chars)`. -/
def prettyprint_contents (fuel : Nat) (node : GumboNode) (lvl : Int) (indent_chars : Str) :
    Option Str := do
  let tagname ← get_tag_name node
  let c ← at0 indent_chars
  prettyprint_contents_loop fuel tagname lvl indent_chars c 0 node.children []

/-- The text one iteration of the loop of `prettyprint_contents` (lines
263-302) appends to `contents` for the child at index `i`. -/
def child_piece (fuel : Nat) (tagname : Str) (lvl : Int) (indent_chars : Str) (c : Char)
    (i : Nat) (child : GumboNode) : Option Str :=
  match child with
  | .text s => do
      let val ←
        if in_set no_entity_sub tagname then pure s
        else substitute_xml_entities_into_text fuel s
      if i = 0 && in_set structural_tags tagname then do
        let n : Int := indent_chars.length
        let indent_space ← string_fill ((lvl - 1) * n) c
        pure (indent_space ++ ltrim val)
      else pure val
  | .element e cs => prettyprint fuel (.element e cs) tagname lvl indent_chars
  | .template e cs => prettyprint fuel (.template e cs) tagname lvl indent_chars
  | .whitespace s =>
      if in_set preserve_whitespace tagname || in_set nonbreaking_inline tagname then some s
      else some []
  | .cdata s => some ("<![CDATA[".toList ++ s ++ "]]>".toList)
  | .comment s => some ("<!--".toList ++ s ++ "-->".toList)
  | .document _ _ => some []

/-- The depth at which `prettyprint` prints the contents of an element named
`tagname` (lines 358-362). -/
def contents_lvl (tagname : Str) (lvl : Int) : Int :=
  if in_set structural_tags tagname && tagname != "html".toList then lvl + 1 else lvl

/-! ## Reference definitions, written from the specification's wording -/

/-- The entity standing for one character of text content. -/
def text_entity (c : Char) : Str :=
  if c = '&' then "&amp;".toList
  else if c = '<' then "&lt;".toList
  else if c = '>' then "&gt;".toList
  else [c]

/-- The character-wise escape of text content. -/
def escape_text_charwise : Str → Str
  | [] => []
  | c :: cs => text_entity c ++ escape_text_charwise cs

/-- Replace every character equal to `c` by the text `s2`, one character at a
time. -/
def subst_char (c : Char) (s2 : Str) : Str → Str
  | [] => []
  | x :: xs => (if x = c then s2 else [x]) ++ subst_char c s2 xs

/-- The value text of an attribute after entity substitution with the quote
character `quote`: the text escape, then the escape of that one quote. -/
def escape_attr_value (quote : Char) (t : Str) : Str :=
  if quote = DQUOTE then subst_char DQUOTE "&quot;".toList (escape_text_charwise t)
  else if quote = SQUOTE then subst_char SQUOTE "&apos;".toList (escape_text_charwise t)
  else escape_text_charwise t

/-- The wrapping quote of an attribute: the single quote exactly when the
original source value begins with one. -/
def wrapping_quote (attr : GumboAttribute) : Str :=
  if attr.original_value.data0 = SQUOTE then [SQUOTE] else [DQUOTE]

/-- The rendering of one attribute: a space, the serialized name, `=`, and the
value text between two wrapping quotes. -/
def attribute_text (no_entities : Bool) (attr : GumboAttribute) : Str :=
  " ".toList ++ get_attribute_name attr ++ "=".toList ++ wrapping_quote attr
    ++ (if no_entities then attr.value
        else escape_attr_value (attribute_quote attr).1 attr.value)
    ++ wrapping_quote attr

/-- The attribute string of an element: the renderings of its attributes, in
order. -/
def attributes_text (no_entities : Bool) : List GumboAttribute → Str
  | [] => []
  | attr :: rest => attribute_text no_entities attr ++ attributes_text no_entities rest

/-- Whether a node is a Text or a Whitespace node. -/
def is_text_or_whitespace : GumboNode → Bool
  | .text _ => true
  | .whitespace _ => true
  | _ => false

/-- The concatenation, in order, of the character data of the Text and
Whitespace nodes of a children list: Text data entity-escaped when `escape`
is set, Whitespace data as it is. -/
def children_text (escape : Bool) : List GumboNode → Str
  | [] => []
  | .text s :: rest => (if escape then escape_text_charwise s else s) ++ children_text escape rest
  | .whitespace s :: rest => s ++ children_text escape rest
  | _ :: rest => children_text escape rest

/-- The contents of a structural element with raw text (`script`, `style`)
before the right-trim: a leading Text child is indented and left-trimmed, the
rest is the children's data as it is. -/
def structural_raw_contents (indent_space : Str) : List GumboNode → Str
  | .text s :: rest => indent_space ++ ltrim s ++ children_text false rest
  | cs => children_text false cs

/-- The concatenation of the pieces of a list of children, each rendered by
the rule for a child that is not the first one. -/
def pieces (fuel : Nat) (tagname : Str) (lvl : Int) (indent_chars : Str) (c : Char) :
    List GumboNode → Option Str
  | [] => some []
  | y :: ys => do
      let p ← child_piece fuel tagname lvl indent_chars c 1 y
      let r ← pieces fuel tagname lvl indent_chars c ys
      pure (p ++ r)

/-- Whether a character is one of the whitespace characters of `rtrim` and
`ltrim`. -/
def is_whitespace_char (c : Char) : Bool :=
  WHITESPACE_CHARS.contains c

/-- The text of a Text child as `prettyprint_contents` takes it: raw when the
parent's tag suppresses entity substitution, character-wise escaped
otherwise. -/
def text_value (tagname : Str) (s : Str) : Str :=
  if in_set no_entity_sub tagname then s else escape_text_charwise s

/-- Single-pass decoder of the five entities; the first argument is the number
of characters of an entity just decoded that are still to be passed over. -/
def decode_aux : Nat → Str → Str
  | _, [] => []
  | skip + 1, _ :: rest => decode_aux skip rest
  | 0, c :: rest =>
      if "&amp;".toList.isPrefixOf (c :: rest) then '&' :: decode_aux 4 rest
      else if "&lt;".toList.isPrefixOf (c :: rest) then '<' :: decode_aux 3 rest
      else if "&gt;".toList.isPrefixOf (c :: rest) then '>' :: decode_aux 3 rest
      else if "&quot;".toList.isPrefixOf (c :: rest) then DQUOTE :: decode_aux 5 rest
      else if "&apos;".toList.isPrefixOf (c :: rest) then SQUOTE :: decode_aux 5 rest
      else c :: decode_aux 0 rest

/-- Decoding of the entities `&lt;`, `&gt;`, `&quot;`, `&apos;` and `&amp;`,
from left to right; a decoded character is not decoded again. -/
def decode_entities (s : Str) : Str :=
  decode_aux 0 s

/-! ## The calls made by a run of the printer -/

/-- One call of `prettyprint` on an element or template node: the node, the
names of its proper ancestors (the parent first, so that `parentname` is the
head), the depth of the call whose contents loop made this call, and the depth
passed to this call. -/
structure PrettyprintCall where
  node : GumboNode
  ancestors : List Str
  caller_lvl : Int
  lvl : Int

mutual

/-- The calls of `prettyprint` on element and template nodes made, directly or
not, by `prettyprint(node, lvl)`: a document prints its children at `lvl + 1`
(line 319), an element at `lvl + 1` if it is structural and not `html` and at
`lvl` otherwise (lines 358-362). -/
def prettyprint_calls (node : GumboNode) (ancestors : List Str) (lvl : Int) :
    List PrettyprintCall :=
  match node with
  | .document _ children =>
      children_calls ("#document".toList :: ancestors) lvl (lvl + 1) children
  | .element e children | .template e children =>
      children_calls (get_element_tag_name e :: ancestors) lvl
        (contents_lvl (get_element_tag_name e) lvl) children
  | _ => []

/-- The calls made by the loop of `prettyprint_contents(node, lvl)` (line 284)
over the children of a node reached at depth `caller_lvl`. -/
def children_calls (ancestors : List Str) (caller_lvl lvl : Int) :
    List GumboNode → List PrettyprintCall
  | [] => []
  | child :: rest =>
    match child with
    | .element e cs =>
        { node := .element e cs, ancestors := ancestors, caller_lvl := caller_lvl, lvl := lvl }
          :: (prettyprint_calls (.element e cs) ancestors lvl
            ++ children_calls ancestors caller_lvl lvl rest)
    | .template e cs =>
        { node := .template e cs, ancestors := ancestors, caller_lvl := caller_lvl, lvl := lvl }
          :: (prettyprint_calls (.template e cs) ancestors lvl
            ++ children_calls ancestors caller_lvl lvl rest)
    | .document _ _ => children_calls ancestors caller_lvl lvl rest
    | .text _ => children_calls ancestors caller_lvl lvl rest
    | .cdata _ => children_calls ancestors caller_lvl lvl rest
    | .comment _ => children_calls ancestors caller_lvl lvl rest
    | .whitespace _ => children_calls ancestors caller_lvl lvl rest

end

/-- The number of structural elements other than `html` among the ancestors. -/
def structural_ancestors (ancestors : List Str) : Nat :=
  (ancestors.filter (fun a => in_set structural_tags a && a != "html".toList)).length

mutual

/-- The printer of lines 313-405 with a log: the body of `prettyprint`, taking
the names of the proper ancestors of the node (`parentname` is their head) and
returning, with the text, the calls of `prettyprint` on element and template
nodes made during the run, each logged with the arguments it was made with. -/
def prettyprint_traced (fuel : Nat) (node : GumboNode) (ancestors : List Str) (lvl : Int)
    (indent_chars : Str) : Option (Str × List PrettyprintCall) :=
  match node with
  | .document d children => do
      let results := build_doctype d
      let c ← at0 indent_chars
      let r ← loop_traced fuel "#document".toList ancestors lvl (lvl + 1) indent_chars c 0
        children []
      pure (results ++ r.1, r.2)
  | .element e children | .template e children => do
      let parentname := ancestors.headD []
      let tagname := get_element_tag_name e
      let is_empty_tag := in_set empty_tags tagname
      let no_entity_substitution := in_set no_entity_sub tagname
      let keep_whitespace := in_set preserve_whitespace tagname
      let is_inline := in_set nonbreaking_inline tagname && !in_set structural_tags parentname
      let is_structural := in_set structural_tags tagname
      let pp_okay := !is_inline && !keep_whitespace
      let c ← at0 indent_chars
      let n : Int := indent_chars.length
      let atts ← build_attr_string fuel no_entity_substitution e.attributes []
      let close : Str := if is_empty_tag then "/".toList else []
      let closeTag : Str :=
        if is_empty_tag then [] else "</".toList ++ tagname ++ ">".toList
      let indent_space ← string_fill ((lvl - 1) * n) c
      let r ←
        if is_structural && tagname != "html".toList then
          loop_traced fuel tagname ancestors lvl (lvl + 1) indent_chars c 0 children []
        else
          loop_traced fuel tagname ancestors lvl lvl indent_chars c 0 children []
      let contents := trim_structural is_structural r.1
      pure (build_results tagname atts close closeTag indent_space contents
        is_inline is_structural pp_okay, r.2)
  | _ => none

/-- The loop of `prettyprint_contents` (lines 261-304) with the log: `tagname`
is the name of the node whose children are printed, `ancestors` the names of
its proper ancestors, `caller_lvl` the depth at which that node was reached
and `lvl` the depth passed to `prettyprint_contents`. Each call of line 284 is
logged with the depth `lvl` it passes. -/
def loop_traced (fuel : Nat) (tagname : Str) (ancestors : List Str) (caller_lvl lvl : Int)
    (indent_chars : Str) (c : Char) (i : Nat) (children : List GumboNode) (contents : Str) :
    Option (Str × List PrettyprintCall) :=
  match children with
  | [] => some (contents, [])
  | child :: rest =>
    match child with
    | .text s => do
        let val ←
          if in_set no_entity_sub tagname then pure s
          else substitute_xml_entities_into_text fuel s
        if i = 0 && in_set structural_tags tagname then do
          let n : Int := indent_chars.length
          let indent_space ← string_fill ((lvl - 1) * n) c
          loop_traced fuel tagname ancestors caller_lvl lvl indent_chars c (i + 1) rest
            (contents ++ indent_space ++ ltrim val)
        else
          loop_traced fuel tagname ancestors caller_lvl lvl indent_chars c (i + 1) rest
            (contents ++ val)
    | .element e cs => do
        let v ← prettyprint_traced fuel (.element e cs) (tagname :: ancestors) lvl indent_chars
        let r ← loop_traced fuel tagname ancestors caller_lvl lvl indent_chars c (i + 1) rest
          (contents ++ v.1)
        pure (r.1,
          { node := .element e cs, ancestors := tagname :: ancestors,
            caller_lvl := caller_lvl, lvl := lvl } :: (v.2 ++ r.2))
    | .template e cs => do
        let v ← prettyprint_traced fuel (.template e cs) (tagname :: ancestors) lvl indent_chars
        let r ← loop_traced fuel tagname ancestors caller_lvl lvl indent_chars c (i + 1) rest
          (contents ++ v.1)
        pure (r.1,
          { node := .template e cs, ancestors := tagname :: ancestors,
            caller_lvl := caller_lvl, lvl := lvl } :: (v.2 ++ r.2))
    | .whitespace s =>
        if in_set preserve_whitespace tagname || in_set nonbreaking_inline tagname then
          loop_traced fuel tagname ancestors caller_lvl lvl indent_chars c (i + 1) rest
            (contents ++ s)
        else
          loop_traced fuel tagname ancestors caller_lvl lvl indent_chars c (i + 1) rest contents
    | .cdata s =>
        loop_traced fuel tagname ancestors caller_lvl lvl indent_chars c (i + 1) rest
          (contents ++ ("<![CDATA[".toList ++ s ++ "]]>".toList))
    | .comment s =>
        loop_traced fuel tagname ancestors caller_lvl lvl indent_chars c (i + 1) rest
          (contents ++ ("<!--".toList ++ s ++ "-->".toList))
    | .document _ _ =>
        loop_traced fuel tagname ancestors caller_lvl lvl indent_chars c (i + 1) rest contents

end

/-! ## Loop budget needed by a tree -/

/-- The largest length of an attribute value in a list of attributes. -/
def attrs_bound : List GumboAttribute → Nat
  | [] => 0
  | attr :: rest => max attr.value.length (attrs_bound rest)

mutual

/-- The largest length of a Text node's data or of an attribute value in a
subtree: a loop budget of this size is enough for every escaping loop run
while the subtree is printed. -/
def text_bound : GumboNode → Nat
  | .document _ children => children_text_bound children
  | .element e children => max (attrs_bound e.attributes) (children_text_bound children)
  | .template e children => max (attrs_bound e.attributes) (children_text_bound children)
  | .text s => s.length
  | .cdata _ => 0
  | .comment _ => 0
  | .whitespace _ => 0

/-- The largest `text_bound` of the nodes of a list. -/
def children_text_bound : List GumboNode → Nat
  | [] => 0
  | child :: rest => max (text_bound child) (children_text_bound rest)

end

/-! ## Example inputs -/

/-- An HTML element the parser knows by `name`, written `name` in the source. -/
def html_element (name : Str) (attributes : List GumboAttribute) : GumboElement :=
  { normalized_tagname := name, tag_namespace := GumboNamespaceEnum.HTML,
    original_tag := { data := name, length := name.length }, svg_tagname := none,
    attributes := attributes }

/-- The attribute of `<img src=foo.png>`: an unquoted value. -/
def src_attr : GumboAttribute :=
  { attr_namespace := GumboAttributeNamespaceEnum.NONE, name := "src".toList,
    value := "foo.png".toList,
    original_value := { data := "foo.png>".toList, length := 7 } }

/-- The attribute of `<a href='x'>`: a single-quoted value. -/
def href_attr : GumboAttribute :=
  { attr_namespace := GumboAttributeNamespaceEnum.NONE, name := "href".toList,
    value := "x".toList,
    original_value := { data := "'x'>link</a></p>".toList, length := 3 } }

/-- The attribute of `<p title=a&quot;b>`: an unquoted value whose parsed text
holds a double quote. -/
def title_attr : GumboAttribute :=
  { attr_namespace := GumboAttributeNamespaceEnum.NONE, name := "title".toList,
    value := "a\"b".toList,
    original_value := { data := "a&quot;b>".toList, length := 8 } }

/-- The attribute of `<input disabled>`: no value; the parser records the name
as the original text. -/
def disabled_attr : GumboAttribute :=
  { attr_namespace := GumboAttributeNamespaceEnum.NONE, name := "disabled".toList,
    value := [],
    original_value := { data := "disabled>".toList, length := 8 } }

/-- The tree of `<img src=foo.png>`. -/
def img_node : GumboNode :=
  .element (html_element "img".toList [src_attr]) []

/-- The tree of `<hr>`. -/
def hr_node : GumboNode :=
  .element (html_element "hr".toList []) []

/-- The tree of `<spacer>x</spacer>`: the parser gives `spacer` no special
treatment, so the element keeps its text child. -/
def spacer_node : GumboNode :=
  .element (html_element "spacer".toList []) [.text "x".toList]

/-- The tree of `<script> var x; </script>`. -/
def script_node : GumboNode :=
  .element (html_element "script".toList []) [.text " var x; ".toList]

/-- The tree of `<pre> a &lt; b\n</pre>`. -/
def pre_node : GumboNode :=
  .element (html_element "pre".toList []) [.whitespace " ".toList, .text "a < b\n".toList]

/-- The tree of `<a href='x'>link</a>`. -/
def a_node : GumboNode :=
  .element (html_element "a".toList [href_attr]) [.text "link".toList]

/-- The tree of `<p><a href='x'>link</a></p>`. -/
def p_node : GumboNode :=
  .element (html_element "p".toList []) [a_node]

/-- A `div` element with the given children. -/
def div_with (children : List GumboNode) : GumboNode :=
  .element (html_element "div".toList []) children

/-- A `span` element with the given children. -/
def span_with (children : List GumboNode) : GumboNode :=
  .element (html_element "span".toList []) children

/-- The doctype of an XHTML 1.1 document. -/
def xhtml_doctype : GumboDocument :=
  { has_doctype := true, name := "html".toList,
    public_identifier := "-//W3C//DTD XHTML 1.1//EN".toList,
    system_identifier := "http://www.w3.org/TR/xhtml11/DTD/xhtml11.dtd".toList }

/-- The doctype of `<!DOCTYPE html>`. -/
def html5_doctype : GumboDocument :=
  { has_doctype := true, name := "html".toList, public_identifier := [],
    system_identifier := [] }

/-- The root element of `<html><body><p><a href='x'>link</a></p></body></html>`. -/
def html_root : GumboElement :=
  html_element "html".toList []

/-- The children of that root element. -/
def html_root_children : List GumboNode :=
  [.element (html_element "body".toList []) [p_node]]

/-- The element of `<SVG>` in the SVG namespace: the parser normalizes the tag
to `svg`, and the table of SVG spellings has no entry for it. -/
def svg_upper_element : GumboElement :=
  { normalized_tagname := "svg".toList, tag_namespace := GumboNamespaceEnum.SVG,
    original_tag := { data := "SVG>".toList, length := 3 }, svg_tagname := none,
    attributes := [] }

/-- The element of `<foreignobject>` in the SVG namespace: the table of SVG
spellings gives `foreignObject`, followed in memory by the next table bytes. -/
def foreignobject_element : GumboElement :=
  { normalized_tagname := "foreignobject".toList, tag_namespace := GumboNamespaceEnum.SVG,
    original_tag := { data := "foreignobject>".toList, length := 13 },
    svg_tagname := some "foreignObject\x00glyphref".toList,
    attributes := [] }

/-- The element of `<my-tag>`: a tag the parser does not know, so that the
normalized name is empty. -/
def unknown_element : GumboElement :=
  { normalized_tagname := [], tag_namespace := GumboNamespaceEnum.HTML,
    original_tag := { data := "my-tag>".toList, length := 6 }, svg_tagname := none,
    attributes := [] }

/-- The attribute of `<script title="a&b<c">`: a double-quoted value with
markup characters. -/
def raw_attr : GumboAttribute :=
  { attr_namespace := GumboAttributeNamespaceEnum.NONE, name := "title".toList,
    value := "a&b<c".toList,
    original_value := { data := "\"a&b<c\">".toList, length := 7 } }

/-- The element of `<script title="a&b<c">`. -/
def raw_script_element : GumboElement :=
  html_element "script".toList [raw_attr]

/-- The tree of `<div><p>Hi &amp; bye</p></div>`. -/
def div_p_node : GumboNode :=
  .element (html_element "div".toList [])
    [.element (html_element "p".toList []) [.text "Hi & bye".toList]]

/-- The tree of `<div><p><a href='x'>link</a></p></div>`. -/
def div_link_node : GumboNode :=
  .element (html_element "div".toList []) [p_node]

/-- The children of the document node of `<!DOCTYPE html><html><head></head>
<body><div><p><a href='x'>link</a></p></div></body></html>` (written on one
line). -/
def sample_document_children : List GumboNode :=
  [.element (html_element "html".toList [])
    [.element (html_element "head".toList []) [],
     .element (html_element "body".toList []) [div_link_node]]]

/-- The document node of that text. -/
def sample_document : GumboNode :=
  .document html5_doctype sample_document_children

/-- The call of `prettyprint` on the `div` of `sample_document`. -/
def div_call : PrettyprintCall :=
  { node := div_link_node,
    ancestors := ["body".toList, "html".toList, "#document".toList],
    caller_lvl := 1, lvl := 2 }

/-! ## Lemmas on the string primitives -/

theorem find_aux_char_cons (c x : Char) (s : Str) (i : Nat) :
    find_aux [c] (x :: s) i = if x = c then some i else find_aux [c] s (i + 1) := by
  by_cases h : x = c
  · subst h; simp [find_aux, List.isPrefixOf]
  · have h2 : ¬ c = x := fun e => h e.symm
    simp [find_aux, List.isPrefixOf, h, h2]

theorem find_aux_char_skip (c : Char) (a b : Str) (i : Nat) (h : c ∉ a) :
    find_aux [c] (a ++ b) i = find_aux [c] b (i + a.length) := by
  induction a generalizing i with
  | nil => simp
  | cons x xs ih =>
      have hx : ¬ x = c := fun e => h (by simp [e])
      have hxs : c ∉ xs := fun e => h (by simp [e])
      rw [List.cons_append, find_aux_char_cons, if_neg hx, ih (i + 1) hxs]
      congr 1
      simp only [List.length_cons]
      omega

theorem subst_char_append (c : Char) (s2 a b : Str) :
    subst_char c s2 (a ++ b) = subst_char c s2 a ++ subst_char c s2 b := by
  induction a with
  | nil => rfl
  | cons x xs ih => simp [subst_char, ih]

theorem subst_char_of_not_mem (c : Char) (s2 a : Str) (h : c ∉ a) :
    subst_char c s2 a = a := by
  induction a with
  | nil => rfl
  | cons x xs ih =>
      have hx : ¬ x = c := fun e => h (by simp [e])
      have hxs : c ∉ xs := fun e => h (by simp [e])
      simp [subst_char, hx, ih hxs]

theorem count_subst_char (c d : Char) (s2 t : Str) (hdc : d ≠ c) (hd : d ∉ s2) :
    (subst_char c s2 t).count d = t.count d := by
  induction t with
  | nil => rfl
  | cons x xs ih =>
      by_cases hx : x = c
      · subst hx
        have h0 : List.count d s2 = 0 := List.count_eq_zero_of_not_mem hd
        have h1 : ¬ x = d := fun e => hdc e.symm
        simp [subst_char, List.count_append, List.count_cons, ih, h0, h1]
      · simp [subst_char, hx, List.count_cons, ih]

/-- The loop of `replace_all` on a one-character pattern `c`: when the
replacement text does not contain `c` after its first character, the loop
ends within `count c` iterations and has replaced every `c`. -/
theorem replace_all_loop_char (c : Char) (s2 : Str) (hs2 : s2 ≠ []) (hc : c ∉ s2.tail) :
    ∀ (rest pre : Str) (fuel : Nat), rest.count c ≤ fuel →
      replace_all_loop [c] s2 fuel (pre ++ rest) (find_aux [c] rest pre.length)
        = some (pre ++ subst_char c s2 rest) := by
  intro rest
  induction rest with
  | nil =>
      intro pre fuel _
      cases fuel <;> simp [find_aux, List.isPrefixOf, replace_all_loop, subst_char]
  | cons x xs ih =>
      intro pre fuel hfuel
      rw [find_aux_char_cons]
      by_cases hx : x = c
      · subst hx
        rw [if_pos rfl]
        cases fuel with
        | zero => simp at hfuel
        | succ f =>
            have hf : xs.count x ≤ f := by
              simp [List.count_cons] at hfuel
              exact hfuel
            obtain ⟨y, ys, rfl⟩ := List.exists_cons_of_ne_nil hs2
            have hys : x ∉ ys := hc
            have hrep : replace (pre ++ x :: xs) pre.length [x].length (y :: ys)
                = (pre ++ y :: ys) ++ xs := by
              simp [replace]
            have hfind : find ((pre ++ y :: ys) ++ xs) [x] (pre.length + [x].length)
                = find_aux [x] xs (pre ++ y :: ys).length := by
              have hdrop : List.drop (pre.length + 1) ((pre ++ y :: ys) ++ xs) = ys ++ xs := by
                have : (pre ++ y :: ys) ++ xs = (pre ++ [y]) ++ (ys ++ xs) := by simp
                rw [this, List.drop_left' (by simp)]
              have hle : pre.length + 1 ≤ ((pre ++ y :: ys) ++ xs).length := by
                simp only [List.length_append, List.length_cons]; omega
              simp only [find, List.length_singleton, if_pos hle, hdrop]
              rw [find_aux_char_skip x ys xs _ hys]
              congr 1
              simp only [List.length_append, List.length_cons]; omega
            simp only [replace_all_loop]
            rw [hrep, hfind, ih (pre ++ y :: ys) f hf]
            simp [subst_char]
      · rw [if_neg hx]
        have hcnt : xs.count c ≤ fuel := by
          simp [List.count_cons, hx] at hfuel
          exact hfuel
        have h1 := ih (pre ++ [x]) fuel hcnt
        simp only [List.length_append, List.length_singleton, List.append_assoc,
          List.singleton_append] at h1
        rw [h1]
        simp [subst_char, hx]

theorem replace_all_char (c : Char) (s2 : Str) (hs2 : s2 ≠ []) (hc : c ∉ s2.tail)
    (fuel : Nat) (s : Str) (h : s.count c ≤ fuel) :
    replace_all fuel s [c] s2 = some (subst_char c s2 s) := by
  have := replace_all_loop_char c s2 hs2 hc s [] fuel h
  simpa [replace_all, find] using this

theorem escape_text_charwise_eq (t : Str) :
    escape_text_charwise t
      = subst_char '>' "&gt;".toList
          (subst_char '<' "&lt;".toList (subst_char '&' "&amp;".toList t)) := by
  induction t with
  | nil => rfl
  | cons x xs ih =>
      simp only [escape_text_charwise, subst_char, subst_char_append, ih, text_entity]
      by_cases h1 : x = '&'
      · subst h1
        simp only [if_true]
        congr 1
      · by_cases h2 : x = '<'
        · subst h2
          simp only [if_neg h1, if_true, subst_char, List.append_nil, List.nil_append]
          congr 1
        · by_cases h3 : x = '>'
          · subst h3
            simp [h1, h2, subst_char]
          · simp [h1, h2, h3, subst_char]

/-- The text escaper returns the character-wise escape whenever the loop
budget is at least the length of the text. -/
theorem substitute_xml_entities_into_text_eq (fuel : Nat) (t : Str) (h : t.length ≤ fuel) :
    substitute_xml_entities_into_text fuel t = some (escape_text_charwise t) := by
  have c1 : t.count '&' ≤ fuel := le_trans (List.count_le_length _ _) h
  have e1 := replace_all_char '&' "&amp;".toList (by decide) (by decide) fuel t c1
  have c2 : (subst_char '&' "&amp;".toList t).count '<' ≤ fuel := by
    rw [count_subst_char _ _ _ _ (by decide) (by decide)]
    exact le_trans (List.count_le_length _ _) h
  have e2 := replace_all_char '<' "&lt;".toList (by decide) (by decide) fuel _ c2
  have c3 : (subst_char '<' "&lt;".toList (subst_char '&' "&amp;".toList t)).count '>'
      ≤ fuel := by
    rw [count_subst_char _ _ _ _ (by decide) (by decide),
      count_subst_char _ _ _ _ (by decide) (by decide)]
    exact le_trans (List.count_le_length _ _) h
  have e3 := replace_all_char '>' "&gt;".toList (by decide) (by decide) fuel _ c3
  have s1 : "&".toList = ['&'] := rfl
  have s2 : "<".toList = ['<'] := rfl
  have s3 : ">".toList = ['>'] := rfl
  simp only [substitute_xml_entities_into_text, s1, s2, s3, e1, e2, e3, Option.bind_eq_bind,
    Option.some_bind, Option.pure_def, escape_text_charwise_eq]

theorem not_mem_text_entity (d c : Char) (hd : d = '<' ∨ d = '>') : d ∉ text_entity c := by
  unfold text_entity
  rcases hd with rfl | rfl
  · by_cases h1 : c = '&'
    · rw [if_pos h1]; decide
    · by_cases h2 : c = '<'
      · rw [if_neg h1, if_pos h2]; decide
      · by_cases h3 : c = '>'
        · rw [if_neg h1, if_neg h2, if_pos h3]; decide
        · rw [if_neg h1, if_neg h2, if_neg h3]
          simp only [List.mem_singleton]
          exact fun e => h2 e.symm
  · by_cases h1 : c = '&'
    · rw [if_pos h1]; decide
    · by_cases h2 : c = '<'
      · rw [if_neg h1, if_pos h2]; decide
      · by_cases h3 : c = '>'
        · rw [if_neg h1, if_neg h2, if_pos h3]; decide
        · rw [if_neg h1, if_neg h2, if_neg h3]
          simp only [List.mem_singleton]
          exact fun e => h3 e.symm

theorem not_mem_escape_text_charwise (d : Char) (hd : d = '<' ∨ d = '>') (t : Str) :
    d ∉ escape_text_charwise t := by
  induction t with
  | nil => simp [escape_text_charwise]
  | cons x xs ih =>
      simp only [escape_text_charwise, List.mem_append, not_or]
      exact ⟨not_mem_text_entity d x hd, ih⟩

/-! ## Lemmas on attributes -/

theorem substitute_xml_entities_into_attributes_eq (fuel : Nat) (quote : Char) (t : Str)
    (h : t.length ≤ fuel) :
    substitute_xml_entities_into_attributes fuel quote t = some (escape_attr_value quote t) := by
  have hcount : ∀ d : Char, d ∉ "&amp;".toList → d ∉ "&lt;".toList → d ∉ "&gt;".toList →
      d ≠ '&' → d ≠ '<' → d ≠ '>' → (escape_text_charwise t).count d ≤ fuel := by
    intro d h1 h2 h3 h4 h5 h6
    rw [escape_text_charwise_eq, count_subst_char _ _ _ _ h6 h3,
      count_subst_char _ _ _ _ h5 h2, count_subst_char _ _ _ _ h4 h1]
    exact le_trans (List.count_le_length _ _) h
  simp only [substitute_xml_entities_into_attributes, substitute_xml_entities_into_text_eq fuel t h,
    Option.bind_eq_bind, Option.some_bind, escape_attr_value]
  by_cases hq : quote = DQUOTE
  · rw [if_pos hq, if_pos hq]
    exact replace_all_char DQUOTE _ (by decide) (by decide) fuel _
      (hcount DQUOTE (by decide) (by decide) (by decide) (by decide) (by decide) (by decide))
  · rw [if_neg hq, if_neg hq]
    by_cases hs : quote = SQUOTE
    · rw [if_pos hs, if_pos hs]
      exact replace_all_char SQUOTE _ (by decide) (by decide) fuel _
        (hcount SQUOTE (by decide) (by decide) (by decide) (by decide) (by decide) (by decide))
    · rw [if_neg hs, if_neg hs]
      rfl

theorem attribute_quote_snd (attr : GumboAttribute) :
    (attribute_quote attr).2 = wrapping_quote attr := by
  unfold attribute_quote wrapping_quote
  have hne : ¬ SQUOTE = DQUOTE := by decide
  have hne2 : ¬ DQUOTE = SQUOTE := by decide
  by_cases hs : attr.original_value.data0 = SQUOTE
  · have hd : ¬ attr.original_value.data0 = DQUOTE := by rw [hs]; decide
    simp [hs, hd, hne]
  · by_cases hd : attr.original_value.data0 = DQUOTE
    · simp [hs, hd, hne2]
    · by_cases hv : attr.value.isEmpty = true
      · simp [hs, hd, hv]
      · simp [hs, hd, hv]

theorem build_attributes_eq (fuel : Nat) (attr : GumboAttribute) (no_entities : Bool)
    (h : attr.value.length ≤ fuel) :
    build_attributes fuel attr no_entities = some (attribute_text no_entities attr) := by
  have hq := attribute_quote_snd attr
  cases no_entities with
  | true =>
      simp only [build_attributes, attribute_text, hq]
      simp
  | false =>
      simp only [build_attributes, attribute_text, hq,
        substitute_xml_entities_into_attributes_eq fuel _ _ h]
      simp

theorem build_attr_string_eq (fuel : Nat) (no_entities : Bool) (attrs : List GumboAttribute)
    (h : ∀ a ∈ attrs, a.value.length ≤ fuel) (atts : Str) :
    build_attr_string fuel no_entities attrs atts
      = some (atts ++ attributes_text no_entities attrs) := by
  induction attrs generalizing atts with
  | nil => simp [build_attr_string, attributes_text]
  | cons a rest ih =>
      have ha := build_attributes_eq fuel a no_entities (h a (by simp))
      have hr := ih (fun b hb => h b (by simp [hb])) (atts ++ attribute_text no_entities a)
      simp only [build_attr_string, ha, Option.bind_eq_bind, Option.some_bind, hr,
        attributes_text, List.append_assoc]

/-! ## Lemmas on the recursive printer -/

/-- One iteration of the loop of `prettyprint_contents`. -/
theorem loop_cons (fuel : Nat) (tagname : Str) (lvl : Int) (ind : Str) (c : Char) (i : Nat)
    (child : GumboNode) (rest : List GumboNode) (acc : Str) :
    prettyprint_contents_loop fuel tagname lvl ind c i (child :: rest) acc
      = (child_piece fuel tagname lvl ind c i child).bind (fun p =>
          prettyprint_contents_loop fuel tagname lvl ind c (i + 1) rest (acc ++ p)) := by
  cases child with
  | document d cs => rw [prettyprint_contents_loop]; simp [child_piece]
  | element e cs => rw [prettyprint_contents_loop]; rfl
  | template e cs => rw [prettyprint_contents_loop]; rfl
  | whitespace s =>
      rw [prettyprint_contents_loop]
      simp only [child_piece]
      split <;> simp
  | cdata s => rw [prettyprint_contents_loop]; simp [child_piece]
  | comment s => rw [prettyprint_contents_loop]; simp [child_piece]
  | text s =>
      rw [prettyprint_contents_loop]
      simp only [child_piece, Option.bind_eq_bind, Option.pure_def]
      by_cases hne : in_set no_entity_sub tagname = true <;>
      by_cases h0 : (i = 0 ∧ in_set structural_tags tagname = true) <;>
      cases hs : substitute_xml_entities_into_text fuel s <;>
      cases hf : string_fill ((lvl - 1) * (ind.length : Int)) c <;>
      simp [hne, h0, List.append_assoc]

theorem loop_nil (fuel : Nat) (tagname : Str) (lvl : Int) (ind : Str) (c : Char) (i : Nat)
    (acc : Str) :
    prettyprint_contents_loop fuel tagname lvl ind c i [] acc = some acc := by
  rw [prettyprint_contents_loop]

/-- The text built so far is only ever extended. -/
theorem loop_acc (fuel : Nat) (tagname : Str) (lvl : Int) (ind : Str) (c : Char)
    (children : List GumboNode) (i : Nat) (acc : Str) :
    prettyprint_contents_loop fuel tagname lvl ind c i children acc
      = (prettyprint_contents_loop fuel tagname lvl ind c i children []).map
          (fun r => acc ++ r) := by
  induction children generalizing i acc with
  | nil => simp [loop_nil]
  | cons child rest ih =>
      rw [loop_cons, loop_cons]
      cases hp : child_piece fuel tagname lvl ind c i child with
      | none => simp
      | some p =>
          simp only [Option.some_bind, List.nil_append]
          rw [ih (i + 1) (acc ++ p), ih (i + 1) p]
          cases prettyprint_contents_loop fuel tagname lvl ind c (i + 1) rest [] with
          | none => simp
          | some r => simp

theorem child_piece_index (fuel : Nat) (tagname : Str) (lvl : Int) (ind : Str) (c : Char)
    (i j : Nat) (hi : 1 ≤ i) (hj : 1 ≤ j) (child : GumboNode) :
    child_piece fuel tagname lvl ind c i child = child_piece fuel tagname lvl ind c j child := by
  have hi0 : ¬ i = 0 := by omega
  have hj0 : ¬ j = 0 := by omega
  cases child <;> simp [child_piece, hi0, hj0]

/-- From index one on, the loop does not look at the index. -/
theorem loop_index (fuel : Nat) (tagname : Str) (lvl : Int) (ind : Str) (c : Char)
    (children : List GumboNode) (i j : Nat) (hi : 1 ≤ i) (hj : 1 ≤ j) (acc : Str) :
    prettyprint_contents_loop fuel tagname lvl ind c i children acc
      = prettyprint_contents_loop fuel tagname lvl ind c j children acc := by
  induction children generalizing i j acc with
  | nil => simp [loop_nil]
  | cons child rest ih =>
      rw [loop_cons, loop_cons, child_piece_index fuel tagname lvl ind c i j hi hj child]
      cases child_piece fuel tagname lvl ind c j child with
      | none => simp
      | some p =>
          simp only [Option.some_bind]
          exact ih (i + 1) (j + 1) (by omega) (by omega) (acc ++ p)

theorem loop_append (fuel : Nat) (tagname : Str) (lvl : Int) (ind : Str) (c : Char)
    (xs ys : List GumboNode) (i : Nat) (acc : Str) :
    prettyprint_contents_loop fuel tagname lvl ind c i (xs ++ ys) acc
      = (prettyprint_contents_loop fuel tagname lvl ind c i xs acc).bind (fun a =>
          prettyprint_contents_loop fuel tagname lvl ind c (i + xs.length) ys a) := by
  induction xs generalizing i acc with
  | nil => simp [loop_nil]
  | cons child rest ih =>
      rw [List.cons_append, loop_cons, loop_cons]
      cases child_piece fuel tagname lvl ind c i child with
      | none => simp
      | some p =>
          simp only [Option.some_bind]
          rw [ih (i + 1) (acc ++ p)]
          have : i + 1 + rest.length = i + (child :: rest).length := by
            simp only [List.length_cons]; omega
          rw [this]

/-- The body of `prettyprint` on an element or template node, once its parts
are known: the indent character, the indentation, and the contents. -/
theorem prettyprint_element_eq (fuel : Nat) (node : GumboNode) (e : GumboElement)
    (cs : List GumboNode) (hnode : node = .element e cs ∨ node = .template e cs)
    (parentname : Str) (lvl : Int) (ind : Str) (c : Char) (indent_space contents : Str)
    (hc : at0 ind = some c)
    (hfill : string_fill ((lvl - 1) * (ind.length : Int)) c = some indent_space)
    (hatts : ∀ a ∈ e.attributes, a.value.length ≤ fuel)
    (hcont : prettyprint_contents fuel node (contents_lvl (get_element_tag_name e) lvl) ind
      = some contents) :
    prettyprint fuel node parentname lvl ind
      = some (build_results (get_element_tag_name e)
          (attributes_text (in_set no_entity_sub (get_element_tag_name e)) e.attributes)
          (if in_set empty_tags (get_element_tag_name e) then "/".toList else [])
          (if in_set empty_tags (get_element_tag_name e) then []
            else "</".toList ++ get_element_tag_name e ++ ">".toList)
          indent_space
          (trim_structural (in_set structural_tags (get_element_tag_name e)) contents)
          (in_set nonbreaking_inline (get_element_tag_name e)
            && !in_set structural_tags parentname)
          (in_set structural_tags (get_element_tag_name e))
          (!(in_set nonbreaking_inline (get_element_tag_name e)
              && !in_set structural_tags parentname)
            && !in_set preserve_whitespace (get_element_tag_name e))) := by
  have ha := build_attr_string_eq fuel (in_set no_entity_sub (get_element_tag_name e))
    e.attributes hatts []
  rcases hnode with rfl | rfl
  · simp only [prettyprint_contents, get_tag_name, hc, GumboNode.children, contents_lvl,
      Option.bind_eq_bind, Option.some_bind] at hcont
    rw [prettyprint]
    simp only [hc, ha, hfill, Option.bind_eq_bind, Option.some_bind, Option.pure_def,
      List.nil_append]
    split at hcont <;> rename_i hs
    · rw [if_pos hs, hcont]; rfl
    · rw [if_neg hs, hcont]; rfl
  · simp only [prettyprint_contents, get_tag_name, hc, GumboNode.children, contents_lvl,
      Option.bind_eq_bind, Option.some_bind] at hcont
    rw [prettyprint]
    simp only [hc, ha, hfill, Option.bind_eq_bind, Option.some_bind, Option.pure_def,
      List.nil_append]
    split at hcont <;> rename_i hs
    · rw [if_pos hs, hcont]; rfl
    · rw [if_neg hs, hcont]; rfl

theorem string_fill_of_one_le (lvl : Int) (n : Nat) (c : Char) (h : 1 ≤ lvl) :
    string_fill ((lvl - 1) * (n : Int)) c
      = some (List.replicate ((lvl - 1) * (n : Int)).toNat c) := by
  have h0 : ¬ (lvl - 1) * (n : Int) < 0 := by
    have h1 : 0 ≤ lvl - 1 := by omega
    have h2 : (0 : Int) ≤ (n : Int) := Int.ofNat_nonneg n
    have := Int.mul_nonneg h1 h2
    omega
  simp [string_fill, h0]

theorem rtrim_nil : rtrim [] = [] := by
  decide

theorem trim_structural_nil (b : Bool) : trim_structural b [] = [] := by
  cases b <;> simp [trim_structural, rtrim_nil]

/-- Structural contents, when not empty, end with the newline that line 366
appends. -/
theorem trim_structural_getLastD (contents : Str)
    (h : trim_structural true contents ≠ []) :
    (trim_structural true contents).getLastD ' ' = NEWLINE := by
  unfold trim_structural at h ⊢
  by_cases hr : rtrim contents = []
  · simp [hr] at h
  · simp [hr, List.getLastD_eq_getLast?]

theorem trim_structural_false (contents : Str) : trim_structural false contents = contents := by
  simp [trim_structural]

/-- The assembly of lines 374-404, written as one concatenation. -/
theorem build_results_eq (tagname atts close closeTag indent_space contents : Str)
    (is_inline is_structural pp_okay : Bool) :
    build_results tagname atts close closeTag indent_space contents is_inline is_structural
        pp_okay
      = (if is_inline then [] else indent_space)
        ++ ("<".toList ++ tagname ++ atts ++ close ++ ">".toList)
        ++ (if pp_okay ∧ is_structural ∧ contents ≠ [] then [NEWLINE] else [])
        ++ contents
        ++ (if pp_okay ∧ contents.getLastD ' ' ≠ NEWLINE ∧ contents ≠ [] ∧ is_structural
            then [NEWLINE] else [])
        ++ (if ¬ is_inline ∧ is_structural ∧ closeTag ≠ [] ∧ contents ≠ []
            then indent_space else [])
        ++ closeTag
        ++ (if pp_okay then [NEWLINE] else []) := by
  unfold build_results
  by_cases hcont : contents = []
  · subst hcont
    cases is_inline <;> cases is_structural <;> cases pp_okay <;> simp
  · by_cases hlast : (List.getLast? contents).getD ' ' = NEWLINE <;>
    by_cases hct : closeTag = [] <;>
    cases is_inline <;> cases is_structural <;> cases pp_okay <;>
    simp [hcont, hlast, hct]

theorem prettyprint_contents_no_children (fuel : Nat) (node : GumboNode) (e : GumboElement)
    (hnode : node = .element e [] ∨ node = .template e []) (lvl : Int) (ind : Str) (c : Char)
    (hc : at0 ind = some c) :
    prettyprint_contents fuel node lvl ind = some [] := by
  rcases hnode with rfl | rfl <;>
  simp [prettyprint_contents, get_tag_name, hc, GumboNode.children, loop_nil]

/-! ## Lemmas on the classification tables -/

theorem preserve_whitespace_cases (t : Str) (h : in_set preserve_whitespace t = true) :
    t = "pre".toList ∨ t = "textarea".toList ∨ t = "script".toList ∨ t = "style".toList := by
  simpa [in_set, preserve_whitespace] using h

theorem preserve_whitespace_not_void (t : Str) (h : in_set preserve_whitespace t = true) :
    in_set empty_tags t = false := by
  rcases preserve_whitespace_cases t h with rfl | rfl | rfl | rfl <;> decide

theorem preserve_not_structural (t : Str) (h : in_set preserve_whitespace t = true)
    (hs : in_set structural_tags t = false) :
    in_set no_entity_sub t = false := by
  rcases preserve_whitespace_cases t h with rfl | rfl | rfl | rfl
  · decide
  · decide
  · exact absurd hs (by decide)
  · exact absurd hs (by decide)

theorem preserve_structural (t : Str) (h : in_set preserve_whitespace t = true)
    (hs : in_set structural_tags t = true) :
    in_set no_entity_sub t = true ∧ in_set nonbreaking_inline t = false
      ∧ (t != "html".toList) = true := by
  rcases preserve_whitespace_cases t h with rfl | rfl | rfl | rfl
  · exact absurd hs (by decide)
  · exact absurd hs (by decide)
  · decide
  · decide

/-- The loop on Text and Whitespace children of a whitespace-preserving
element, for every iteration that is not the first one of a structural
element. -/
theorem loop_preserve_text (fuel : Nat) (tagname : Str) (lvl : Int) (ind : Str) (c : Char)
    (hkeep : in_set preserve_whitespace tagname = true)
    (cs : List GumboNode) (hall : cs.all is_text_or_whitespace = true)
    (hfuel : in_set no_entity_sub tagname = false → ∀ s, GumboNode.text s ∈ cs → s.length ≤ fuel)
    (i : Nat) (hidx : in_set structural_tags tagname = false ∨ 1 ≤ i) (acc : Str) :
    prettyprint_contents_loop fuel tagname lvl ind c i cs acc
      = some (acc ++ children_text (!in_set no_entity_sub tagname) cs) := by
  induction cs generalizing i acc with
  | nil => simp [loop_nil, children_text]
  | cons child rest ih =>
      have hrest : rest.all is_text_or_whitespace = true := by
        simp only [List.all_cons, Bool.and_eq_true] at hall
        exact hall.2
      have hfr : in_set no_entity_sub tagname = false →
          ∀ s, GumboNode.text s ∈ rest → s.length ≤ fuel :=
        fun hn s hs => hfuel hn s (List.mem_cons_of_mem _ hs)
      have hnext : in_set structural_tags tagname = false ∨ 1 ≤ i + 1 := Or.inr (by omega)
      have hfirst : ¬ (i = 0 ∧ in_set structural_tags tagname = true) := by
        rintro ⟨h0, hs⟩
        rcases hidx with h | h
        · rw [h] at hs; exact absurd hs (by decide)
        · omega
      rw [loop_cons]
      cases child with
      | text s =>
          cases hne : in_set no_entity_sub tagname with
          | true =>
              simp only [child_piece, hne, if_true, Option.pure_def, Option.bind_eq_bind,
                Option.some_bind, Bool.and_eq_true, decide_eq_true_eq, hfirst, if_false]
              rw [ih hrest hfr (i + 1) hnext]
              simp [children_text, hne]
          | false =>
              have hs := substitute_xml_entities_into_text_eq fuel s
                (hfuel hne s (List.mem_cons_self _ _))
              simp only [child_piece, hne, Option.pure_def, Option.bind_eq_bind, hs,
                Option.some_bind, Bool.and_eq_true, decide_eq_true_eq, hfirst, if_false,
                Bool.false_eq_true]
              rw [ih hrest hfr (i + 1) hnext]
              simp [children_text, hne]
      | whitespace s =>
          simp only [child_piece, hkeep, Bool.true_or, if_true, Option.some_bind]
          rw [ih hrest hfr (i + 1) hnext]
          simp [children_text]
      | document d ds => simp [is_text_or_whitespace] at hall
      | element e es => simp [is_text_or_whitespace] at hall
      | template e es => simp [is_text_or_whitespace] at hall
      | cdata s => simp [is_text_or_whitespace] at hall
      | comment s => simp [is_text_or_whitespace] at hall

/-- The contents of a structural whitespace-preserving element (`script`,
`style`) whose children are Text and Whitespace nodes. -/
theorem loop_structural_raw (fuel : Nat) (tagname : Str) (lvl : Int) (ind : Str) (c : Char)
    (hkeep : in_set preserve_whitespace tagname = true)
    (hst : in_set structural_tags tagname = true) (hlvl : 1 ≤ lvl)
    (cs : List GumboNode) (hall : cs.all is_text_or_whitespace = true) :
    prettyprint_contents_loop fuel tagname lvl ind c 0 cs []
      = some (structural_raw_contents
          (List.replicate ((lvl - 1) * (ind.length : Int)).toNat c) cs) := by
  have hne := (preserve_structural tagname hkeep hst).1
  have hfuel : in_set no_entity_sub tagname = false →
      ∀ (l : List GumboNode) (s : Str), GumboNode.text s ∈ l → s.length ≤ fuel := by
    intro h
    rw [hne] at h
    exact absurd h (by decide)
  cases cs with
  | nil => simp [loop_nil, structural_raw_contents, children_text]
  | cons child rest =>
      have hrest : rest.all is_text_or_whitespace = true := by
        simp only [List.all_cons, Bool.and_eq_true] at hall
        exact hall.2
      have hloop := fun acc => loop_preserve_text fuel tagname lvl ind c hkeep rest hrest
        (fun h => hfuel h rest) 1 (Or.inr (le_refl 1)) acc
      rw [loop_cons]
      cases child with
      | text s =>
          simp only [child_piece, hne, if_true, Option.pure_def, Option.bind_eq_bind,
            Option.some_bind, hst, Bool.and_true, decide_True,
            string_fill_of_one_le lvl ind.length c hlvl, Nat.zero_add, hloop,
            structural_raw_contents]
          simp
      | whitespace s =>
          simp only [child_piece, hkeep, Bool.true_or, if_true, Option.some_bind, Nat.zero_add,
            hloop, structural_raw_contents, children_text]
          simp [hne]
      | document d ds => simp [is_text_or_whitespace] at hall
      | element e es => simp [is_text_or_whitespace] at hall
      | template e es => simp [is_text_or_whitespace] at hall
      | cdata s => simp [is_text_or_whitespace] at hall
      | comment s => simp [is_text_or_whitespace] at hall

theorem inline_not_structural (t : Str) (h : in_set nonbreaking_inline t = true) :
    in_set structural_tags t = false := by
  have hall : ∀ x ∈ nonbreaking_inline, in_set structural_tags x = false := by decide
  have hmem : t ∈ nonbreaking_inline := by
    simpa [in_set] using h
  exact hall t hmem

theorem contents_lvl_not_structural (t : Str) (lvl : Int)
    (h : in_set structural_tags t = false) : contents_lvl t lvl = lvl := by
  simp [contents_lvl, h]

theorem loop_eq_pieces (fuel : Nat) (tagname : Str) (lvl : Int) (ind : Str) (c : Char)
    (ys : List GumboNode) (i : Nat) (hi : 1 ≤ i) (acc : Str) :
    prettyprint_contents_loop fuel tagname lvl ind c i ys acc
      = (pieces fuel tagname lvl ind c ys).map (fun b => acc ++ b) := by
  induction ys generalizing i acc with
  | nil => simp [loop_nil, pieces]
  | cons y rest ih =>
      rw [loop_cons, child_piece_index fuel tagname lvl ind c i 1 hi (le_refl 1) y]
      simp only [pieces, Option.bind_eq_bind, Option.pure_def]
      cases child_piece fuel tagname lvl ind c 1 y with
      | none => simp
      | some p =>
          simp only [Option.some_bind]
          rw [ih (i + 1) (by omega) (acc ++ p)]
          cases pieces fuel tagname lvl ind c rest with
          | none => simp
          | some r => simp

/-- What a successful call of `prettyprint` on an element or template node
returned. -/
theorem prettyprint_element_inv (fuel : Nat) (node : GumboNode) (e : GumboElement)
    (cs : List GumboNode) (hnode : node = .element e cs ∨ node = .template e cs)
    (parentname : Str) (lvl : Int) (ind out : Str)
    (h : prettyprint fuel node parentname lvl ind = some out) :
    ∃ (c : Char) (atts indent_space contents : Str),
      at0 ind = some c
      ∧ string_fill ((lvl - 1) * (ind.length : Int)) c = some indent_space
      ∧ out = build_results (get_element_tag_name e) atts
          (if in_set empty_tags (get_element_tag_name e) then "/".toList else [])
          (if in_set empty_tags (get_element_tag_name e) then []
            else "</".toList ++ get_element_tag_name e ++ ">".toList)
          indent_space contents
          (in_set nonbreaking_inline (get_element_tag_name e)
            && !in_set structural_tags parentname)
          (in_set structural_tags (get_element_tag_name e))
          (!(in_set nonbreaking_inline (get_element_tag_name e)
              && !in_set structural_tags parentname)
            && !in_set preserve_whitespace (get_element_tag_name e)) := by
  have hgen : ∀ (c : Char) (atts indent_space : Str) (x : Option Str),
      at0 ind = some c →
      string_fill ((lvl - 1) * (ind.length : Int)) c = some indent_space →
      (x.bind fun y => some (build_results (get_element_tag_name e) atts
          (if in_set empty_tags (get_element_tag_name e) then "/".toList else [])
          (if in_set empty_tags (get_element_tag_name e) then []
            else "</".toList ++ get_element_tag_name e ++ ">".toList)
          indent_space (trim_structural (in_set structural_tags (get_element_tag_name e)) y)
          (in_set nonbreaking_inline (get_element_tag_name e)
            && !in_set structural_tags parentname)
          (in_set structural_tags (get_element_tag_name e))
          (!(in_set nonbreaking_inline (get_element_tag_name e)
              && !in_set structural_tags parentname)
            && !in_set preserve_whitespace (get_element_tag_name e)))) = some out →
      ∃ (c : Char) (atts indent_space contents : Str),
        at0 ind = some c
        ∧ string_fill ((lvl - 1) * (ind.length : Int)) c = some indent_space
        ∧ out = build_results (get_element_tag_name e) atts
            (if in_set empty_tags (get_element_tag_name e) then "/".toList else [])
            (if in_set empty_tags (get_element_tag_name e) then []
              else "</".toList ++ get_element_tag_name e ++ ">".toList)
            indent_space contents
            (in_set nonbreaking_inline (get_element_tag_name e)
              && !in_set structural_tags parentname)
            (in_set structural_tags (get_element_tag_name e))
            (!(in_set nonbreaking_inline (get_element_tag_name e)
                && !in_set structural_tags parentname)
              && !in_set preserve_whitespace (get_element_tag_name e)) := by
    intro c atts indent_space x hc hfill hx
    cases x with
    | none => simp at hx
    | some y =>
        simp only [Option.some_bind, Option.some.injEq] at hx
        exact ⟨c, atts, indent_space, _, hc, hfill, hx.symm⟩
  rcases hnode with rfl | rfl
  · rw [prettyprint] at h
    simp only [Option.bind_eq_bind, Option.pure_def] at h
    cases hc : at0 ind with
    | none => simp [hc] at h
    | some c =>
      cases ha : build_attr_string fuel (in_set no_entity_sub (get_element_tag_name e))
          e.attributes [] with
      | none => simp [hc, ha] at h
      | some atts =>
        cases hf : string_fill ((lvl - 1) * (ind.length : Int)) c with
        | none => simp [hc, ha, hf] at h
        | some indent_space =>
          simp only [hc, ha, hf, Option.some_bind] at h
          split at h
          · obtain ⟨c1, a1, i1, r1, h1, h2, h3⟩ := hgen c atts indent_space _ hc hf h
            rw [hc] at h1
            exact ⟨c1, a1, i1, r1, h1, h2, h3⟩
          · obtain ⟨c1, a1, i1, r1, h1, h2, h3⟩ := hgen c atts indent_space _ hc hf h
            rw [hc] at h1
            exact ⟨c1, a1, i1, r1, h1, h2, h3⟩
  · rw [prettyprint] at h
    simp only [Option.bind_eq_bind, Option.pure_def] at h
    cases hc : at0 ind with
    | none => simp [hc] at h
    | some c =>
      cases ha : build_attr_string fuel (in_set no_entity_sub (get_element_tag_name e))
          e.attributes [] with
      | none => simp [hc, ha] at h
      | some atts =>
        cases hf : string_fill ((lvl - 1) * (ind.length : Int)) c with
        | none => simp [hc, ha, hf] at h
        | some indent_space =>
          simp only [hc, ha, hf, Option.some_bind] at h
          split at h
          · obtain ⟨c1, a1, i1, r1, h1, h2, h3⟩ := hgen c atts indent_space _ hc hf h
            rw [hc] at h1
            exact ⟨c1, a1, i1, r1, h1, h2, h3⟩
          · obtain ⟨c1, a1, i1, r1, h1, h2, h3⟩ := hgen c atts indent_space _ hc hf h
            rw [hc] at h1
            exact ⟨c1, a1, i1, r1, h1, h2, h3⟩

theorem prettyprint_document_eq (fuel : Nat) (d : GumboDocument) (cs : List GumboNode)
    (parentname : Str) (lvl : Int) (ind : Str) :
    prettyprint fuel (.document d cs) parentname lvl ind
      = (prettyprint_contents fuel (.document d cs) (lvl + 1) ind).map
          (fun contents => build_doctype d ++ contents) := by
  rw [prettyprint]
  simp only [prettyprint_contents, get_tag_name, GumboNode.children, Option.bind_eq_bind,
    Option.some_bind, Option.pure_def]
  cases at0 ind with
  | none => rfl
  | some c =>
      simp only [Option.some_bind]
      cases prettyprint_contents_loop fuel "#document".toList (lvl + 1) ind c 0 cs [] <;> rfl

/-! ## Lemmas on `ltrim` and `rtrim` -/

theorem find_first_not_of_aux_eq (chars s : Str) (i : Nat) :
    find_first_not_of_aux chars s i
      = if s.dropWhile (fun c => chars.contains c) = [] then none
        else some (i + (s.takeWhile (fun c => chars.contains c)).length) := by
  induction s generalizing i with
  | nil => simp [find_first_not_of_aux]
  | cons x xs ih =>
      by_cases hx : chars.contains x = true
      · simp only [find_first_not_of_aux, hx, if_true, ih, List.dropWhile_cons,
          List.takeWhile_cons, List.length_cons]
        split
        · rfl
        · congr 1; omega
      · have hx2 : x ∉ chars := by simpa using hx
        simp [find_first_not_of_aux, hx2, List.dropWhile_cons, List.takeWhile_cons]

theorem drop_takeWhile_length (p : Char → Bool) (s : Str) :
    s.drop (s.takeWhile p).length = s.dropWhile p := by
  have h := List.drop_left (s.takeWhile p) (s.dropWhile p)
  rwa [List.takeWhile_append_dropWhile] at h

/-- `ltrim` removes exactly the leading whitespace. -/
theorem ltrim_eq_dropWhile (s : Str) : ltrim s = s.dropWhile is_whitespace_char := by
  unfold ltrim find_first_not_of
  rw [find_first_not_of_aux_eq]
  by_cases h : s.dropWhile (fun c => WHITESPACE_CHARS.contains c) = []
  · rw [if_pos h]
    exact h.symm
  · rw [if_neg h]
    simp only [Nat.zero_add]
    exact drop_takeWhile_length _ s

/-- `rtrim` removes exactly the trailing whitespace. -/
theorem rtrim_eq_rdropWhile (s : Str) : rtrim s = s.rdropWhile is_whitespace_char := by
  unfold rtrim find_last_not_of
  rw [find_first_not_of_aux_eq]
  have hsplit := List.takeWhile_append_dropWhile (fun c => WHITESPACE_CHARS.contains c)
    s.reverse
  by_cases h : s.reverse.dropWhile (fun c => WHITESPACE_CHARS.contains c) = []
  · rw [if_pos h]
    simp only [Option.map_none', List.take_zero]
    unfold List.rdropWhile is_whitespace_char
    rw [h]
    rfl
  · rw [if_neg h]
    simp only [Option.map_some', Nat.zero_add]
    unfold List.rdropWhile is_whitespace_char
    have hs : s = (s.reverse.dropWhile (fun c => WHITESPACE_CHARS.contains c)).reverse
        ++ (s.reverse.takeWhile (fun c => WHITESPACE_CHARS.contains c)).reverse := by
      rw [← List.reverse_append, hsplit, List.reverse_reverse]
    have hlen : s.length
        = (s.reverse.dropWhile (fun c => WHITESPACE_CHARS.contains c)).length
          + (s.reverse.takeWhile (fun c => WHITESPACE_CHARS.contains c)).length := by
      conv_lhs => rw [hs]
      simp
    have hpos : 0 < (s.reverse.dropWhile (fun c => WHITESPACE_CHARS.contains c)).length :=
      List.length_pos.mpr h
    have hidx : s.length - 1
          - (s.reverse.takeWhile (fun c => WHITESPACE_CHARS.contains c)).length + 1
        = (s.reverse.dropWhile (fun c => WHITESPACE_CHARS.contains c)).reverse.length := by
      rw [List.length_reverse]
      omega
    rw [hidx]
    have h2 := List.take_left
      (s.reverse.dropWhile (fun c => WHITESPACE_CHARS.contains c)).reverse
      (s.reverse.takeWhile (fun c => WHITESPACE_CHARS.contains c)).reverse
    rwa [← hs] at h2

theorem count_dropWhile_whitespace (s : Str) (d : Char) (hd : is_whitespace_char d = false) :
    (s.dropWhile is_whitespace_char).count d = s.count d := by
  induction s with
  | nil => rfl
  | cons x xs ih =>
      by_cases hx : is_whitespace_char x = true
      · have hne : ¬ x = d := by
          intro e
          rw [e] at hx
          rw [hx] at hd
          exact absurd hd (by decide)
        simp [List.dropWhile_cons, hx, ih, List.count_cons, hne]
      · simp [List.dropWhile_cons, hx]

theorem no_entity_sub_cases (t : Str) (h : in_set no_entity_sub t = true) :
    in_set structural_tags t = true ∧ in_set preserve_whitespace t = true := by
  have ht : t = "script".toList ∨ t = "style".toList := by
    simpa [in_set, no_entity_sub] using h
  rcases ht with rfl | rfl <;> decide

theorem build_attributes_raw (fuel : Nat) (attr : GumboAttribute) :
    build_attributes fuel attr true = some (attribute_text true attr) := by
  have hq := attribute_quote_snd attr
  simp only [build_attributes, attribute_text, hq]
  simp

theorem build_attr_string_raw (fuel : Nat) (attrs : List GumboAttribute) (atts : Str) :
    build_attr_string fuel true attrs atts = some (atts ++ attributes_text true attrs) := by
  induction attrs generalizing atts with
  | nil => simp [build_attr_string, attributes_text]
  | cons a rest ih =>
      simp only [build_attr_string, build_attributes_raw, Option.bind_eq_bind,
        Option.some_bind, ih, attributes_text, List.append_assoc]

/-- One iteration of the loop of `prettyprint_contents` on a Text child whose
text value is known. -/
theorem loop_text (fuel : Nat) (tagname : Str) (lvl : Int) (ind : Str) (c : Char) (i : Nat)
    (s : Str) (rest : List GumboNode) (acc : Str)
    (hfuel : in_set no_entity_sub tagname = false → s.length ≤ fuel) :
    prettyprint_contents_loop fuel tagname lvl ind c i (.text s :: rest) acc
      = if i = 0 ∧ in_set structural_tags tagname = true then
          (string_fill ((lvl - 1) * (ind.length : Int)) c).bind (fun sp =>
            prettyprint_contents_loop fuel tagname lvl ind c (i + 1) rest
              (acc ++ sp ++ ltrim (text_value tagname s)))
        else
          prettyprint_contents_loop fuel tagname lvl ind c (i + 1) rest
            (acc ++ text_value tagname s) := by
  rw [loop_cons]
  simp only [child_piece, Option.pure_def, Option.bind_eq_bind]
  cases hne : in_set no_entity_sub tagname with
  | true =>
      have htv : text_value tagname s = s := by simp [text_value, hne]
      rw [htv]
      by_cases h0 : (i = 0 ∧ in_set structural_tags tagname = true) <;>
      cases hf : string_fill ((lvl - 1) * (ind.length : Int)) c <;>
      simp [h0, List.append_assoc]
  | false =>
      have htv : text_value tagname s = escape_text_charwise s := by simp [text_value, hne]
      have hs := substitute_xml_entities_into_text_eq fuel s (hfuel hne)
      rw [htv]
      by_cases h0 : (i = 0 ∧ in_set structural_tags tagname = true) <;>
      cases hf : string_fill ((lvl - 1) * (ind.length : Int)) c <;>
      simp [h0, hs, List.append_assoc]

theorem structural_not_inline (t : Str) (h : in_set structural_tags t = true) :
    in_set nonbreaking_inline t = false := by
  cases hi : in_set nonbreaking_inline t with
  | false => rfl
  | true =>
      have := inline_not_structural t hi
      rw [h] at this
      exact absurd this (by decide)

theorem not_preserve_no_entity_sub (t : Str) (h : in_set preserve_whitespace t = false) :
    in_set no_entity_sub t = false := by
  cases hn : in_set no_entity_sub t with
  | false => rfl
  | true =>
      have := (no_entity_sub_cases t hn).2
      rw [h] at this
      exact absurd this (by decide)

/-- Lines 364-367 on a structural element: the trailing whitespace is removed
and one newline is appended to what remains, if anything. -/
theorem trim_structural_true_eq (contents : Str) :
    trim_structural true contents
      = if contents.rdropWhile is_whitespace_char = [] then []
        else contents.rdropWhile is_whitespace_char ++ [NEWLINE] := by
  simp only [trim_structural, rtrim_eq_rdropWhile, if_true]
  by_cases h : contents.rdropWhile is_whitespace_char = []
  · simp [h]
  · simp [h]

theorem contents_lvl_ge (t : Str) (lvl : Int) : lvl ≤ contents_lvl t lvl := by
  unfold contents_lvl
  split <;> omega

mutual

theorem prettyprint_calls_lvl (node : GumboNode) (ancestors : List Str) (lvl : Int)
    (call : PrettyprintCall) (h : call ∈ prettyprint_calls node ancestors lvl) :
    call.caller_lvl ≤ call.lvl ∧ lvl ≤ call.lvl ∧ lvl ≤ call.caller_lvl :=
  match node with
  | .document _ children => by
      rw [prettyprint_calls] at h
      have := children_calls_lvl children _ lvl (lvl + 1) call (by omega) h
      omega
  | .element e children => by
      rw [prettyprint_calls] at h
      have h1 := contents_lvl_ge (get_element_tag_name e) lvl
      have := children_calls_lvl children _ lvl _ call h1 h
      omega
  | .template e children => by
      rw [prettyprint_calls] at h
      have h1 := contents_lvl_ge (get_element_tag_name e) lvl
      have := children_calls_lvl children _ lvl _ call h1 h
      omega
  | .text _ => by simp [prettyprint_calls] at h
  | .cdata _ => by simp [prettyprint_calls] at h
  | .comment _ => by simp [prettyprint_calls] at h
  | .whitespace _ => by simp [prettyprint_calls] at h

theorem children_calls_lvl (children : List GumboNode) (ancestors : List Str)
    (caller_lvl lvl : Int) (call : PrettyprintCall) (hle : caller_lvl ≤ lvl)
    (h : call ∈ children_calls ancestors caller_lvl lvl children) :
    call.caller_lvl ≤ call.lvl ∧ lvl ≤ call.lvl ∧ caller_lvl ≤ call.caller_lvl :=
  match children with
  | [] => by simp [children_calls] at h
  | .element e cs :: rest => by
      rw [children_calls] at h
      simp only [List.mem_cons, List.mem_append] at h
      rcases h with h | h | h
      · subst h; exact ⟨hle, le_refl _, le_refl _⟩
      · have := prettyprint_calls_lvl (.element e cs) ancestors lvl call h
        omega
      · exact children_calls_lvl rest ancestors caller_lvl lvl call hle h
  | .template e cs :: rest => by
      rw [children_calls] at h
      simp only [List.mem_cons, List.mem_append] at h
      rcases h with h | h | h
      · subst h; exact ⟨hle, le_refl _, le_refl _⟩
      · have := prettyprint_calls_lvl (.template e cs) ancestors lvl call h
        omega
      · exact children_calls_lvl rest ancestors caller_lvl lvl call hle h
  | .document _ _ :: rest => by
      rw [children_calls] at h
      exact children_calls_lvl rest ancestors caller_lvl lvl call hle h
  | .text _ :: rest => by
      rw [children_calls] at h
      exact children_calls_lvl rest ancestors caller_lvl lvl call hle h
  | .cdata _ :: rest => by
      rw [children_calls] at h
      exact children_calls_lvl rest ancestors caller_lvl lvl call hle h
  | .comment _ :: rest => by
      rw [children_calls] at h
      exact children_calls_lvl rest ancestors caller_lvl lvl call hle h
  | .whitespace _ :: rest => by
      rw [children_calls] at h
      exact children_calls_lvl rest ancestors caller_lvl lvl call hle h

end

/-! ## Totality of the printer -/

theorem attrs_bound_le (fuel : Nat) (attrs : List GumboAttribute) (h : attrs_bound attrs ≤ fuel) :
    ∀ a ∈ attrs, a.value.length ≤ fuel := by
  induction attrs with
  | nil => intro a ha; simp at ha
  | cons x rest ih =>
      intro a ha
      simp only [attrs_bound] at h
      simp only [List.mem_cons] at ha
      rcases ha with rfl | ha
      · omega
      · exact ih (by omega) a ha

mutual

/-- Every iteration of the loop of `prettyprint_contents` returns, at a depth
of at least one and with a loop budget covering the child. -/
theorem child_piece_total (child : GumboNode) (fuel : Nat) (tagname : Str) (lvl : Int)
    (ind : Str) (c : Char) (i : Nat) (hc : at0 ind = some c) (hlvl : 1 ≤ lvl)
    (hfuel : text_bound child ≤ fuel) :
    ∃ p, child_piece fuel tagname lvl ind c i child = some p :=
  match child with
  | .document _ _ => ⟨[], rfl⟩
  | .cdata s => ⟨_, rfl⟩
  | .comment s => ⟨_, rfl⟩
  | .whitespace s => by
      simp only [child_piece]
      split <;> exact ⟨_, rfl⟩
  | .text s => by
      have hs : s.length ≤ fuel := by
        rw [text_bound] at hfuel
        exact hfuel
      have key := loop_text fuel tagname lvl ind c i s [] [] (fun _ => hs)
      rw [loop_cons] at key
      cases hp : child_piece fuel tagname lvl ind c i (.text s) with
      | some p => exact ⟨p, rfl⟩
      | none =>
          rw [hp, string_fill_of_one_le lvl ind.length c hlvl] at key
          simp only [Option.none_bind, Option.some_bind, loop_nil] at key
          split at key <;> exact absurd key (by simp)
  | .element e cs => by
      rw [text_bound] at hfuel
      have hatts := attrs_bound_le fuel e.attributes (by omega)
      have hl : 1 ≤ contents_lvl (get_element_tag_name e) lvl :=
        le_trans hlvl (contents_lvl_ge _ _)
      obtain ⟨contents, hcont⟩ := loop_total cs fuel (get_element_tag_name e)
        (contents_lvl (get_element_tag_name e) lvl) ind c 0 [] hc hl (by omega)
      have hpc : prettyprint_contents fuel (.element e cs)
          (contents_lvl (get_element_tag_name e) lvl) ind = some contents := by
        simp only [prettyprint_contents, get_tag_name, hc, GumboNode.children,
          Option.bind_eq_bind, Option.some_bind, hcont]
      exact ⟨_, prettyprint_element_eq fuel (.element e cs) e cs (Or.inl rfl) tagname lvl ind c
        _ _ hc (string_fill_of_one_le lvl ind.length c hlvl) hatts hpc⟩
  | .template e cs => by
      rw [text_bound] at hfuel
      have hatts := attrs_bound_le fuel e.attributes (by omega)
      have hl : 1 ≤ contents_lvl (get_element_tag_name e) lvl :=
        le_trans hlvl (contents_lvl_ge _ _)
      obtain ⟨contents, hcont⟩ := loop_total cs fuel (get_element_tag_name e)
        (contents_lvl (get_element_tag_name e) lvl) ind c 0 [] hc hl (by omega)
      have hpc : prettyprint_contents fuel (.template e cs)
          (contents_lvl (get_element_tag_name e) lvl) ind = some contents := by
        simp only [prettyprint_contents, get_tag_name, hc, GumboNode.children,
          Option.bind_eq_bind, Option.some_bind, hcont]
      exact ⟨_, prettyprint_element_eq fuel (.template e cs) e cs (Or.inr rfl) tagname lvl ind
        c _ _ hc (string_fill_of_one_le lvl ind.length c hlvl) hatts hpc⟩

/-- The loop of `prettyprint_contents` returns, at a depth of at least one and
with a loop budget covering the children. -/
theorem loop_total (children : List GumboNode) (fuel : Nat) (tagname : Str) (lvl : Int)
    (ind : Str) (c : Char) (i : Nat) (acc : Str) (hc : at0 ind = some c) (hlvl : 1 ≤ lvl)
    (hfuel : children_text_bound children ≤ fuel) :
    ∃ out, prettyprint_contents_loop fuel tagname lvl ind c i children acc = some out :=
  match children with
  | [] => ⟨acc, loop_nil fuel tagname lvl ind c i acc⟩
  | child :: rest => by
      rw [children_text_bound] at hfuel
      obtain ⟨p, hp⟩ := child_piece_total child fuel tagname lvl ind c i hc hlvl (by omega)
      obtain ⟨out, hout⟩ := loop_total rest fuel tagname lvl ind c (i + 1) (acc ++ p) hc hlvl
        (by omega)
      exact ⟨out, by rw [loop_cons, hp, Option.some_bind, hout]⟩

end

/-! ## Depth of the calls -/

theorem structural_ancestors_cons (t : Str) (ancestors : List Str) (lvl : Int)
    (h : lvl = 1 + (structural_ancestors ancestors : Int)) :
    contents_lvl t lvl = 1 + (structural_ancestors (t :: ancestors) : Int) := by
  unfold contents_lvl structural_ancestors
  by_cases hs : (in_set structural_tags t && t != "html".toList) = true
  · rw [if_pos hs]
    simp only [List.filter_cons, hs, if_true, List.length_cons]
    unfold structural_ancestors at h
    omega
  · rw [if_neg hs]
    simp only [List.filter_cons, hs, if_false]
    exact h

theorem prettyprint_calls_element (node : GumboNode) (e : GumboElement) (cs : List GumboNode)
    (hnode : node = .element e cs ∨ node = .template e cs) (ancestors : List Str) (lvl : Int) :
    prettyprint_calls node ancestors lvl
      = children_calls (get_element_tag_name e :: ancestors) lvl
          (contents_lvl (get_element_tag_name e) lvl) cs := by
  rcases hnode with rfl | rfl <;> rw [prettyprint_calls]

/-- Every call made below a node that is reached at depth one plus the number
of its structural ancestors other than `html` is made at such a depth, on an
element or template node. -/
theorem children_calls_depth (children : List GumboNode) (ancestors : List Str)
    (caller_lvl lvl : Int) (call : PrettyprintCall)
    (hinv : lvl = 1 + (structural_ancestors ancestors : Int))
    (h : call ∈ children_calls ancestors caller_lvl lvl children) :
    call.lvl = 1 + (structural_ancestors call.ancestors : Int)
      ∧ ∃ e cs, call.node = .element e cs ∨ call.node = .template e cs :=
  match children with
  | [] => by simp [children_calls] at h
  | .element e cs :: rest => by
      rw [children_calls, prettyprint_calls_element _ e cs (Or.inl rfl)] at h
      simp only [List.mem_cons, List.mem_append] at h
      rcases h with h | h | h
      · subst h; exact ⟨hinv, e, cs, Or.inl rfl⟩
      · exact children_calls_depth cs _ _ _ call
          (structural_ancestors_cons _ ancestors lvl hinv) h
      · exact children_calls_depth rest ancestors caller_lvl lvl call hinv h
  | .template e cs :: rest => by
      rw [children_calls, prettyprint_calls_element _ e cs (Or.inr rfl)] at h
      simp only [List.mem_cons, List.mem_append] at h
      rcases h with h | h | h
      · subst h; exact ⟨hinv, e, cs, Or.inr rfl⟩
      · exact children_calls_depth cs _ _ _ call
          (structural_ancestors_cons _ ancestors lvl hinv) h
      · exact children_calls_depth rest ancestors caller_lvl lvl call hinv h
  | .document _ _ :: rest => by
      rw [children_calls] at h
      exact children_calls_depth rest ancestors caller_lvl lvl call hinv h
  | .text _ :: rest => by
      rw [children_calls] at h
      exact children_calls_depth rest ancestors caller_lvl lvl call hinv h
  | .cdata _ :: rest => by
      rw [children_calls] at h
      exact children_calls_depth rest ancestors caller_lvl lvl call hinv h
  | .comment _ :: rest => by
      rw [children_calls] at h
      exact children_calls_depth rest ancestors caller_lvl lvl call hinv h
  | .whitespace _ :: rest => by
      rw [children_calls] at h
      exact children_calls_depth rest ancestors caller_lvl lvl call hinv h

mutual

/-- Once the loop budget covers a child, what the loop appends for it does not
depend on the budget: a missing result is then an exception, not an exhausted
budget. -/
theorem child_piece_fuel (child : GumboNode) (fuel1 fuel2 : Nat) (tagname : Str) (lvl : Int)
    (ind : Str) (c : Char) (i : Nat) (h1 : text_bound child ≤ fuel1)
    (h2 : text_bound child ≤ fuel2) :
    child_piece fuel1 tagname lvl ind c i child = child_piece fuel2 tagname lvl ind c i child :=
  match child with
  | .document _ _ => rfl
  | .cdata _ => rfl
  | .comment _ => rfl
  | .whitespace _ => rfl
  | .text s => by
      rw [text_bound] at h1 h2
      simp only [child_piece, substitute_xml_entities_into_text_eq fuel1 s h1,
        substitute_xml_entities_into_text_eq fuel2 s h2]
  | .element e cs => by
      rw [text_bound] at h1 h2
      have ha1 := fun b => build_attr_string_eq fuel1 b e.attributes
        (attrs_bound_le fuel1 e.attributes (by omega)) []
      have ha2 := fun b => build_attr_string_eq fuel2 b e.attributes
        (attrs_bound_le fuel2 e.attributes (by omega)) []
      have hl : ∀ (t : Str) (l : Int) (c2 : Char),
          prettyprint_contents_loop fuel1 t l ind c2 0 cs []
            = prettyprint_contents_loop fuel2 t l ind c2 0 cs [] :=
        fun t l c2 => loop_fuel cs fuel1 fuel2 t l ind c2 0 [] (by omega) (by omega)
      simp only [child_piece]
      rw [prettyprint, prettyprint]
      simp only [ha1, ha2, hl]
  | .template e cs => by
      rw [text_bound] at h1 h2
      have ha1 := fun b => build_attr_string_eq fuel1 b e.attributes
        (attrs_bound_le fuel1 e.attributes (by omega)) []
      have ha2 := fun b => build_attr_string_eq fuel2 b e.attributes
        (attrs_bound_le fuel2 e.attributes (by omega)) []
      have hl : ∀ (t : Str) (l : Int) (c2 : Char),
          prettyprint_contents_loop fuel1 t l ind c2 0 cs []
            = prettyprint_contents_loop fuel2 t l ind c2 0 cs [] :=
        fun t l c2 => loop_fuel cs fuel1 fuel2 t l ind c2 0 [] (by omega) (by omega)
      simp only [child_piece]
      rw [prettyprint, prettyprint]
      simp only [ha1, ha2, hl]

theorem loop_fuel (children : List GumboNode) (fuel1 fuel2 : Nat) (tagname : Str) (lvl : Int)
    (ind : Str) (c : Char) (i : Nat) (acc : Str) (h1 : children_text_bound children ≤ fuel1)
    (h2 : children_text_bound children ≤ fuel2) :
    prettyprint_contents_loop fuel1 tagname lvl ind c i children acc
      = prettyprint_contents_loop fuel2 tagname lvl ind c i children acc :=
  match children with
  | [] => by rw [loop_nil, loop_nil]
  | child :: rest => by
      rw [children_text_bound] at h1 h2
      rw [loop_cons, loop_cons,
        child_piece_fuel child fuel1 fuel2 tagname lvl ind c i (by omega) (by omega)]
      cases child_piece fuel2 tagname lvl ind c i child with
      | none => rfl
      | some p =>
          simp only [Option.some_bind]
          exact loop_fuel rest fuel1 fuel2 tagname lvl ind c (i + 1) (acc ++ p) (by omega)
            (by omega)

end

theorem prettyprint_fuel (node : GumboNode) (fuel1 fuel2 : Nat) (parentname : Str) (lvl : Int)
    (ind : Str) (h1 : text_bound node ≤ fuel1) (h2 : text_bound node ≤ fuel2) :
    prettyprint fuel1 node parentname lvl ind = prettyprint fuel2 node parentname lvl ind :=
  match node with
  | .document d cs => by
      rw [text_bound] at h1 h2
      have hl : ∀ (t : Str) (l : Int) (c2 : Char),
          prettyprint_contents_loop fuel1 t l ind c2 0 cs []
            = prettyprint_contents_loop fuel2 t l ind c2 0 cs [] :=
        fun t l c2 => loop_fuel cs fuel1 fuel2 t l ind c2 0 [] h1 h2
      rw [prettyprint, prettyprint]
      simp only [hl]
  | .element e cs =>
      child_piece_fuel (.element e cs) fuel1 fuel2 parentname lvl ind ' ' 1 h1 h2
  | .template e cs =>
      child_piece_fuel (.template e cs) fuel1 fuel2 parentname lvl ind ' ' 1 h1 h2
  | .text _ => by simp only [prettyprint]
  | .cdata _ => by simp only [prettyprint]
  | .comment _ => by simp only [prettyprint]
  | .whitespace _ => by simp only [prettyprint]

/-! ## Lemmas on the decoder -/

theorem decode_aux_skip (pre rest : Str) :
    decode_aux pre.length (pre ++ rest) = decode_aux 0 rest := by
  induction pre with
  | nil => rfl
  | cons x xs ih =>
      show decode_aux (xs.length + 1) (x :: (xs ++ rest)) = decode_aux 0 rest
      rw [decode_aux]
      exact ih

theorem decode_aux_entity (ent : Str) (d : Char) (rest : Str)
    (h : (ent = "&amp;".toList ∧ d = '&') ∨ (ent = "&lt;".toList ∧ d = '<')
      ∨ (ent = "&gt;".toList ∧ d = '>') ∨ (ent = "&quot;".toList ∧ d = DQUOTE)
      ∨ (ent = "&apos;".toList ∧ d = SQUOTE)) :
    decode_aux 0 (ent ++ rest) = d :: decode_aux 0 rest := by
  rcases h with ⟨rfl, rfl⟩ | ⟨rfl, rfl⟩ | ⟨rfl, rfl⟩ | ⟨rfl, rfl⟩ | ⟨rfl, rfl⟩
  · have step : decode_aux 0 ("&amp;".toList ++ rest)
        = '&' :: decode_aux "amp;".toList.length ("amp;".toList ++ rest) := by
      simp [decode_aux, List.isPrefixOf]
    rw [step, decode_aux_skip]
  · have step : decode_aux 0 ("&lt;".toList ++ rest)
        = '<' :: decode_aux "lt;".toList.length ("lt;".toList ++ rest) := by
      simp [decode_aux, List.isPrefixOf]
    rw [step, decode_aux_skip]
  · have step : decode_aux 0 ("&gt;".toList ++ rest)
        = '>' :: decode_aux "gt;".toList.length ("gt;".toList ++ rest) := by
      simp [decode_aux, List.isPrefixOf]
    rw [step, decode_aux_skip]
  · have step : decode_aux 0 ("&quot;".toList ++ rest)
        = DQUOTE :: decode_aux "quot;".toList.length ("quot;".toList ++ rest) := by
      simp [decode_aux, List.isPrefixOf]
    rw [step, decode_aux_skip]
  · have step : decode_aux 0 ("&apos;".toList ++ rest)
        = SQUOTE :: decode_aux "apos;".toList.length ("apos;".toList ++ rest) := by
      simp [decode_aux, List.isPrefixOf]
    rw [step, decode_aux_skip]

theorem decode_aux_plain (c : Char) (rest : Str) (h : c ≠ '&') :
    decode_aux 0 (c :: rest) = c :: decode_aux 0 rest := by
  have h2 : ¬ '&' = c := fun e => h e.symm
  simp [decode_aux, List.isPrefixOf, h2]

theorem decode_escape_text (t : Str) : decode_entities (escape_text_charwise t) = t := by
  unfold decode_entities
  induction t with
  | nil => rfl
  | cons c cs ih =>
      simp only [escape_text_charwise, text_entity]
      by_cases h1 : c = '&'
      · rw [if_pos h1, decode_aux_entity _ '&' _ (Or.inl ⟨rfl, rfl⟩), ih, h1]
      · rw [if_neg h1]
        by_cases h2 : c = '<'
        · rw [if_pos h2, decode_aux_entity _ '<' _ (Or.inr (Or.inl ⟨rfl, rfl⟩)), ih, h2]
        · rw [if_neg h2]
          by_cases h3 : c = '>'
          · rw [if_pos h3,
              decode_aux_entity _ '>' _ (Or.inr (Or.inr (Or.inl ⟨rfl, rfl⟩))), ih, h3]
          · rw [if_neg h3, List.singleton_append, decode_aux_plain c _ h1, ih]

theorem decode_subst_escape (qc : Char) (qe : Str)
    (hq : (qe = "&quot;".toList ∧ qc = DQUOTE) ∨ (qe = "&apos;".toList ∧ qc = SQUOTE))
    (t : Str) :
    decode_entities (subst_char qc qe (escape_text_charwise t)) = t := by
  have hent : (qe = "&amp;".toList ∧ qc = '&') ∨ (qe = "&lt;".toList ∧ qc = '<')
      ∨ (qe = "&gt;".toList ∧ qc = '>') ∨ (qe = "&quot;".toList ∧ qc = DQUOTE)
      ∨ (qe = "&apos;".toList ∧ qc = SQUOTE) := by
    rcases hq with h | h
    · exact Or.inr (Or.inr (Or.inr (Or.inl h)))
    · exact Or.inr (Or.inr (Or.inr (Or.inr h)))
  have hamp : qc ∉ "&amp;".toList := by
    rcases hq with ⟨_, rfl⟩ | ⟨_, rfl⟩ <;> decide
  have hlt : qc ∉ "&lt;".toList := by
    rcases hq with ⟨_, rfl⟩ | ⟨_, rfl⟩ <;> decide
  have hgt : qc ∉ "&gt;".toList := by
    rcases hq with ⟨_, rfl⟩ | ⟨_, rfl⟩ <;> decide
  unfold decode_entities
  induction t with
  | nil => rfl
  | cons c cs ih =>
      simp only [escape_text_charwise, text_entity, subst_char_append]
      by_cases h1 : c = '&'
      · rw [if_pos h1, subst_char_of_not_mem _ _ _ hamp,
          decode_aux_entity _ '&' _ (Or.inl ⟨rfl, rfl⟩), ih, h1]
      · rw [if_neg h1]
        by_cases h2 : c = '<'
        · rw [if_pos h2, subst_char_of_not_mem _ _ _ hlt,
            decode_aux_entity _ '<' _ (Or.inr (Or.inl ⟨rfl, rfl⟩)), ih, h2]
        · rw [if_neg h2]
          by_cases h3 : c = '>'
          · rw [if_pos h3, subst_char_of_not_mem _ _ _ hgt,
              decode_aux_entity _ '>' _ (Or.inr (Or.inr (Or.inl ⟨rfl, rfl⟩))), ih, h3]
          · rw [if_neg h3]
            by_cases h4 : c = qc
            · simp only [subst_char, h4, if_true, List.append_nil]
              rw [decode_aux_entity qe qc _ hent, ih]
            · simp only [subst_char, h4, if_false, List.append_nil, List.singleton_append]
              rw [decode_aux_plain c _ h1, ih]

theorem decode_escape_attr (q : Char) (t : Str) :
    decode_entities (escape_attr_value q t) = t := by
  unfold escape_attr_value
  by_cases hd : q = DQUOTE
  · rw [if_pos hd]
    exact decode_subst_escape DQUOTE _ (Or.inl ⟨rfl, rfl⟩) t
  · rw [if_neg hd]
    by_cases hs : q = SQUOTE
    · rw [if_pos hs]
      exact decode_subst_escape SQUOTE _ (Or.inr ⟨rfl, rfl⟩) t
    · rw [if_neg hs]
      exact decode_escape_text t

theorem count_trim_structural (x : Str) (d : Char) (hd : is_whitespace_char d = false) :
    (trim_structural true x).count d = x.count d := by
  have hrd : (x.rdropWhile is_whitespace_char).count d = x.count d := by
    unfold List.rdropWhile
    rw [List.count_reverse, count_dropWhile_whitespace _ d hd, List.count_reverse]
  have hnl : ¬ NEWLINE = d := by
    intro e
    rw [← e] at hd
    exact absurd hd (by decide)
  rw [trim_structural_true_eq]
  by_cases h : x.rdropWhile is_whitespace_char = []
  · rw [if_pos h, ← hrd, h]
  · rw [if_neg h, List.count_append, hrd]
    simp [List.count_cons, hnl]

/-! ## A Text child in the result of `prettyprint_contents` -/

/-- The result of `prettyprint_contents` on a node whose children are `xs`,
then a Text node, then `ys`: the result for the children `xs`, followed by the
piece of the Text node and by the pieces of `ys`. -/
theorem prettyprint_contents_text_child (fuel : Nat) (node node_xs : GumboNode)
    (tagname : Str) (xs ys : List GumboNode) (s : Str) (lvl : Int) (ind : Str) (c : Char)
    (ht : get_tag_name node = some tagname) (ht2 : get_tag_name node_xs = some tagname)
    (hch : node.children = xs ++ GumboNode.text s :: ys) (hch2 : node_xs.children = xs)
    (hc : at0 ind = some c)
    (hfuel : in_set no_entity_sub tagname = false → s.length ≤ fuel) :
    prettyprint_contents fuel node lvl ind
      = (prettyprint_contents fuel node_xs lvl ind).bind (fun a =>
          if xs.length = 0 ∧ in_set structural_tags tagname = true then
            (string_fill ((lvl - 1) * (ind.length : Int)) c).bind (fun sp =>
              (pieces fuel tagname lvl ind c ys).map (fun b =>
                a ++ sp ++ ltrim (text_value tagname s) ++ b))
          else
            (pieces fuel tagname lvl ind c ys).map (fun b =>
              a ++ text_value tagname s ++ b)) := by
  simp only [prettyprint_contents, ht, ht2, hc, hch, hch2, Option.bind_eq_bind,
    Option.some_bind]
  rw [loop_append]
  congr 1
  funext a
  rw [loop_text fuel tagname lvl ind c (0 + xs.length) s ys a hfuel, Nat.zero_add]
  by_cases hcond : xs.length = 0 ∧ in_set structural_tags tagname = true
  · rw [if_pos hcond, if_pos hcond]
    congr 1
    funext sp
    exact loop_eq_pieces fuel tagname lvl ind c ys (xs.length + 1) (by omega) _
  · rw [if_neg hcond, if_neg hcond]
    exact loop_eq_pieces fuel tagname lvl ind c ys (xs.length + 1) (by omega) _

theorem prettyprint_contents_nil (fuel : Nat) (node : GumboNode) (tagname : Str) (lvl : Int)
    (ind : Str) (c : Char) (ht : get_tag_name node = some tagname)
    (hch : node.children = []) (hc : at0 ind = some c) :
    prettyprint_contents fuel node lvl ind = some [] := by
  simp only [prettyprint_contents, ht, hc, hch, Option.bind_eq_bind, Option.some_bind,
    loop_nil]

/-- The body of `prettyprint` on an element or template node, for an attribute
string that is known. -/
theorem prettyprint_element_eq_atts (fuel : Nat) (node : GumboNode) (e : GumboElement)
    (cs : List GumboNode) (hnode : node = .element e cs ∨ node = .template e cs)
    (parentname : Str) (lvl : Int) (ind : Str) (c : Char) (atts indent_space contents : Str)
    (hc : at0 ind = some c)
    (hfill : string_fill ((lvl - 1) * (ind.length : Int)) c = some indent_space)
    (ha : build_attr_string fuel (in_set no_entity_sub (get_element_tag_name e))
      e.attributes [] = some atts)
    (hcont : prettyprint_contents fuel node (contents_lvl (get_element_tag_name e) lvl) ind
      = some contents) :
    prettyprint fuel node parentname lvl ind
      = some (build_results (get_element_tag_name e) atts
          (if in_set empty_tags (get_element_tag_name e) then "/".toList else [])
          (if in_set empty_tags (get_element_tag_name e) then []
            else "</".toList ++ get_element_tag_name e ++ ">".toList)
          indent_space
          (trim_structural (in_set structural_tags (get_element_tag_name e)) contents)
          (in_set nonbreaking_inline (get_element_tag_name e)
            && !in_set structural_tags parentname)
          (in_set structural_tags (get_element_tag_name e))
          (!(in_set nonbreaking_inline (get_element_tag_name e)
              && !in_set structural_tags parentname)
            && !in_set preserve_whitespace (get_element_tag_name e))) := by
  rcases hnode with rfl | rfl
  · simp only [prettyprint_contents, get_tag_name, hc, GumboNode.children, contents_lvl,
      Option.bind_eq_bind, Option.some_bind] at hcont
    rw [prettyprint]
    simp only [hc, ha, hfill, Option.bind_eq_bind, Option.some_bind, Option.pure_def,
      List.nil_append]
    split at hcont <;> rename_i hs
    · rw [if_pos hs, hcont]; rfl
    · rw [if_neg hs, hcont]; rfl
  · simp only [prettyprint_contents, get_tag_name, hc, GumboNode.children, contents_lvl,
      Option.bind_eq_bind, Option.some_bind] at hcont
    rw [prettyprint]
    simp only [hc, ha, hfill, Option.bind_eq_bind, Option.some_bind, Option.pure_def,
      List.nil_append]
    split at hcont <;> rename_i hs
    · rw [if_pos hs, hcont]; rfl
    · rw [if_neg hs, hcont]; rfl

/-- The output of `prettyprint` on an element whose tag suppresses entity
substitution (`script`, `style`), in terms of its contents. -/
theorem prettyprint_no_entity_sub (fuel : Nat) (node : GumboNode) (e : GumboElement)
    (cs : List GumboNode) (hnode : node = .element e cs ∨ node = .template e cs)
    (parentname : Str) (lvl : Int) (ind : Str) (c : Char) (contents : Str)
    (hne : in_set no_entity_sub (get_element_tag_name e) = true)
    (hc : at0 ind = some c) (hlvl : 1 ≤ lvl)
    (hcont : prettyprint_contents fuel node (lvl + 1) ind = some contents) :
    prettyprint fuel node parentname lvl ind
      = some (List.replicate ((lvl - 1) * (ind.length : Int)).toNat c
          ++ "<".toList ++ get_element_tag_name e ++ attributes_text true e.attributes
          ++ ">".toList
          ++ trim_structural true contents
          ++ (if trim_structural true contents ≠ []
              then List.replicate ((lvl - 1) * (ind.length : Int)).toNat c else [])
          ++ "</".toList ++ get_element_tag_name e ++ ">".toList) := by
  obtain ⟨hst, hkeep⟩ := no_entity_sub_cases _ hne
  obtain ⟨_, hinl, hhtml⟩ := preserve_structural _ hkeep hst
  have hvoid := preserve_whitespace_not_void _ hkeep
  have hl : contents_lvl (get_element_tag_name e) lvl = lvl + 1 := by
    simp only [contents_lvl, hst, hhtml, Bool.and_self, if_true]
  rw [← hl] at hcont
  have ha : build_attr_string fuel (in_set no_entity_sub (get_element_tag_name e))
      e.attributes [] = some (attributes_text true e.attributes) := by
    rw [hne, build_attr_string_raw]
    rfl
  have key := prettyprint_element_eq_atts fuel node e cs hnode parentname lvl ind c _ _ _
    hc (string_fill_of_one_le lvl ind.length c hlvl) ha hcont
  rw [key, build_results_eq, hst]
  by_cases hempty : trim_structural true contents = []
  · simp [hvoid, hkeep, hinl, hempty]
  · simp [hvoid, hkeep, hinl, hempty]

/-! ## The logging printer and the printer -/

mutual

/-- The logging printer returns the text of `prettyprint`, and its log is the
list `prettyprint_calls`. -/
theorem prettyprint_traced_eq (node : GumboNode) (fuel : Nat) (ancestors : List Str)
    (lvl : Int) (ind : Str) :
    prettyprint_traced fuel node ancestors lvl ind
      = (prettyprint fuel node (ancestors.headD []) lvl ind).map
          (fun out => (out, prettyprint_calls node ancestors lvl)) :=
  match node with
  | .text _ => by simp only [prettyprint_traced, prettyprint, Option.map_none']
  | .cdata _ => by simp only [prettyprint_traced, prettyprint, Option.map_none']
  | .comment _ => by simp only [prettyprint_traced, prettyprint, Option.map_none']
  | .whitespace _ => by simp only [prettyprint_traced, prettyprint, Option.map_none']
  | .document d cs => by
      have ih := fun (t : Str) (a : List Str) (cl l : Int) (c : Char) =>
        loop_traced_eq cs fuel t a cl l ind c 0 []
      rw [prettyprint_traced, prettyprint, prettyprint_calls]
      simp only [ih, Option.bind_eq_bind, Option.pure_def]
      cases at0 ind with
      | none => rfl
      | some c =>
          simp only [Option.some_bind]
          cases prettyprint_contents_loop fuel "#document".toList (lvl + 1) ind c 0 cs [] <;> rfl
  | .element e cs => by
      have ih := fun (t : Str) (a : List Str) (cl l : Int) (c : Char) =>
        loop_traced_eq cs fuel t a cl l ind c 0 []
      rw [prettyprint_traced, prettyprint, prettyprint_calls]
      simp only [ih, Option.bind_eq_bind, Option.pure_def, contents_lvl]
      cases at0 ind with
      | none => rfl
      | some c =>
        simp only [Option.some_bind]
        cases build_attr_string fuel (in_set no_entity_sub (get_element_tag_name e))
            e.attributes [] with
        | none => rfl
        | some atts =>
          simp only [Option.some_bind]
          cases string_fill ((lvl - 1) * (ind.length : Int)) c with
          | none => rfl
          | some indent_space =>
            simp only [Option.some_bind]
            by_cases hcond : (in_set structural_tags (get_element_tag_name e)
                && get_element_tag_name e != "html".toList) = true
            · simp only [hcond, if_true]
              cases prettyprint_contents_loop fuel (get_element_tag_name e) (lvl + 1) ind c 0
                cs [] <;> rfl
            · simp only [hcond, if_false]
              cases prettyprint_contents_loop fuel (get_element_tag_name e) lvl ind c 0
                cs [] <;> rfl
  | .template e cs => by
      have ih := fun (t : Str) (a : List Str) (cl l : Int) (c : Char) =>
        loop_traced_eq cs fuel t a cl l ind c 0 []
      rw [prettyprint_traced, prettyprint, prettyprint_calls]
      simp only [ih, Option.bind_eq_bind, Option.pure_def, contents_lvl]
      cases at0 ind with
      | none => rfl
      | some c =>
        simp only [Option.some_bind]
        cases build_attr_string fuel (in_set no_entity_sub (get_element_tag_name e))
            e.attributes [] with
        | none => rfl
        | some atts =>
          simp only [Option.some_bind]
          cases string_fill ((lvl - 1) * (ind.length : Int)) c with
          | none => rfl
          | some indent_space =>
            simp only [Option.some_bind]
            by_cases hcond : (in_set structural_tags (get_element_tag_name e)
                && get_element_tag_name e != "html".toList) = true
            · simp only [hcond, if_true]
              cases prettyprint_contents_loop fuel (get_element_tag_name e) (lvl + 1) ind c 0
                cs [] <;> rfl
            · simp only [hcond, if_false]
              cases prettyprint_contents_loop fuel (get_element_tag_name e) lvl ind c 0
                cs [] <;> rfl

/-- The logging loop returns the text of the loop of `prettyprint_contents`,
and its log is the list `children_calls`. -/
theorem loop_traced_eq (children : List GumboNode) (fuel : Nat) (tagname : Str)
    (ancestors : List Str) (caller_lvl lvl : Int) (ind : Str) (c : Char) (i : Nat)
    (acc : Str) :
    loop_traced fuel tagname ancestors caller_lvl lvl ind c i children acc
      = (prettyprint_contents_loop fuel tagname lvl ind c i children acc).map
          (fun out => (out, children_calls (tagname :: ancestors) caller_lvl lvl children)) :=
  match children with
  | [] => by
      rw [loop_traced, prettyprint_contents_loop, children_calls]
      rfl
  | .text s :: rest => by
      have ih := fun (a : Str) =>
        loop_traced_eq rest fuel tagname ancestors caller_lvl lvl ind c (i + 1) a
      rw [loop_traced, prettyprint_contents_loop, children_calls]
      simp only [ih, Option.bind_eq_bind, Option.pure_def]
      by_cases hne : in_set no_entity_sub tagname = true <;>
      by_cases h0 : (i = 0 ∧ in_set structural_tags tagname = true) <;>
      cases hs : substitute_xml_entities_into_text fuel s <;>
      cases hf : string_fill ((lvl - 1) * (ind.length : Int)) c <;>
      simp [hne, h0]
  | .whitespace s :: rest => by
      have ih := fun (a : Str) =>
        loop_traced_eq rest fuel tagname ancestors caller_lvl lvl ind c (i + 1) a
      rw [loop_traced, prettyprint_contents_loop, children_calls]
      simp only [ih]
      split <;> rfl
  | .cdata s :: rest => by
      have ih := fun (a : Str) =>
        loop_traced_eq rest fuel tagname ancestors caller_lvl lvl ind c (i + 1) a
      rw [loop_traced, prettyprint_contents_loop, children_calls]
      simp only [ih]
  | .comment s :: rest => by
      have ih := fun (a : Str) =>
        loop_traced_eq rest fuel tagname ancestors caller_lvl lvl ind c (i + 1) a
      rw [loop_traced, prettyprint_contents_loop, children_calls]
      simp only [ih]
  | .document _ _ :: rest => by
      have ih := fun (a : Str) =>
        loop_traced_eq rest fuel tagname ancestors caller_lvl lvl ind c (i + 1) a
      rw [loop_traced, prettyprint_contents_loop, children_calls]
      simp only [ih]
  | .element e cs :: rest => by
      have ih := fun (a : Str) =>
        loop_traced_eq rest fuel tagname ancestors caller_lvl lvl ind c (i + 1) a
      have ihp := prettyprint_traced_eq (.element e cs) fuel (tagname :: ancestors) lvl ind
      rw [loop_traced, prettyprint_contents_loop, children_calls]
      simp only [ih, ihp, Option.bind_eq_bind, Option.pure_def, List.headD_cons]
      cases prettyprint fuel (.element e cs) tagname lvl ind with
      | none => rfl
      | some val =>
          simp only [Option.map_some', Option.some_bind]
          cases prettyprint_contents_loop fuel tagname lvl ind c (i + 1) rest (acc ++ val) <;>
            rfl
  | .template e cs :: rest => by
      have ih := fun (a : Str) =>
        loop_traced_eq rest fuel tagname ancestors caller_lvl lvl ind c (i + 1) a
      have ihp := prettyprint_traced_eq (.template e cs) fuel (tagname :: ancestors) lvl ind
      rw [loop_traced, prettyprint_contents_loop, children_calls]
      simp only [ih, ihp, Option.bind_eq_bind, Option.pure_def, List.headD_cons]
      cases prettyprint fuel (.template e cs) tagname lvl ind with
      | none => rfl
      | some val =>
          simp only [Option.map_some', Option.some_bind]
          cases prettyprint_contents_loop fuel tagname lvl ind c (i + 1) rest (acc ++ val) <;>
            rfl

end

/-- Every logged call is made on a node of the subtree, so a loop budget that
covers the children covers the node of the call. -/
theorem children_calls_bound (children : List GumboNode) (ancestors : List Str)
    (caller_lvl lvl : Int) (call : PrettyprintCall)
    (h : call ∈ children_calls ancestors caller_lvl lvl children) :
    text_bound call.node ≤ children_text_bound children :=
  match children with
  | [] => by simp [children_calls] at h
  | .element e cs :: rest => by
      rw [children_calls, prettyprint_calls_element _ e cs (Or.inl rfl)] at h
      simp only [List.mem_cons, List.mem_append] at h
      rw [children_text_bound, text_bound]
      rcases h with h | h | h
      · subst h
        simp only [text_bound]
        omega
      · have := children_calls_bound cs _ _ _ call h
        omega
      · have := children_calls_bound rest ancestors caller_lvl lvl call h
        omega
  | .template e cs :: rest => by
      rw [children_calls, prettyprint_calls_element _ e cs (Or.inr rfl)] at h
      simp only [List.mem_cons, List.mem_append] at h
      rw [children_text_bound, text_bound]
      rcases h with h | h | h
      · subst h
        simp only [text_bound]
        omega
      · have := children_calls_bound cs _ _ _ call h
        omega
      · have := children_calls_bound rest ancestors caller_lvl lvl call h
        omega
  | .document _ _ :: rest => by
      rw [children_calls] at h
      rw [children_text_bound]
      have := children_calls_bound rest ancestors caller_lvl lvl call h
      omega
  | .text _ :: rest => by
      rw [children_calls] at h
      rw [children_text_bound]
      have := children_calls_bound rest ancestors caller_lvl lvl call h
      omega
  | .cdata _ :: rest => by
      rw [children_calls] at h
      rw [children_text_bound]
      have := children_calls_bound rest ancestors caller_lvl lvl call h
      omega
  | .comment _ :: rest => by
      rw [children_calls] at h
      rw [children_text_bound]
      have := children_calls_bound rest ancestors caller_lvl lvl call h
      omega
  | .whitespace _ :: rest => by
      rw [children_calls] at h
      rw [children_text_bound]
      have := children_calls_bound rest ancestors caller_lvl lvl call h
      omega

/-- A run of the printer on a document node, with its log: it returns when the
depth is at least zero, the indent unit is not empty and the loop budget
covers the tree; the text is that of `prettyprint` and the log is
`prettyprint_calls`. -/
theorem prettyprint_traced_document (fuel : Nat) (d : GumboDocument) (cs : List GumboNode)
    (parentname : Str) (lvl : Int) (ind : Str) (c : Char) (hc : at0 ind = some c)
    (h0 : 0 ≤ lvl) (hfuel : text_bound (.document d cs) ≤ fuel) :
    ∃ out, prettyprint fuel (.document d cs) parentname lvl ind = some out
      ∧ prettyprint_traced fuel (.document d cs) [] lvl ind
          = some (out, prettyprint_calls (.document d cs) [] lvl) := by
  rw [text_bound] at hfuel
  obtain ⟨contents, hcont⟩ := loop_total cs fuel "#document".toList (lvl + 1) ind c 0 []
    hc (by omega) hfuel
  have hpc : prettyprint_contents fuel (.document d cs) (lvl + 1) ind = some contents := by
    simp only [prettyprint_contents, get_tag_name, hc, GumboNode.children,
      Option.bind_eq_bind, Option.some_bind, hcont]
  have hp : ∀ pn : Str, prettyprint fuel (.document d cs) pn lvl ind
      = some (build_doctype d ++ contents) := by
    intro pn
    rw [prettyprint_document_eq, hpc, Option.map_some']
  refine ⟨build_doctype d ++ contents, hp parentname, ?_⟩
  rw [prettyprint_traced_eq, List.headD_nil, hp [], Option.map_some']

/-! ## The claims -/

/-- C1: for every text `t` (and a loop budget of at least its length),
`substitute_xml_entities_into_text` returns the character-wise map of `t` that
sends `&` to `&amp;`, `<` to `&lt;`, `>` to `&gt;` and every other character to
itself, so no produced `&` is escaped again, and the output contains neither
`<` nor `>`. -/
theorem substitute_xml_entities_into_text_charwise (fuel : Nat) (t : Str)
    (h : t.length ≤ fuel) :
    substitute_xml_entities_into_text fuel t = some (escape_text_charwise t)
      ∧ '<' ∉ escape_text_charwise t ∧ '>' ∉ escape_text_charwise t :=
  ⟨substitute_xml_entities_into_text_eq fuel t h,
    not_mem_escape_text_charwise '<' (Or.inl rfl) t,
    not_mem_escape_text_charwise '>' (Or.inr rfl) t⟩

theorem substitute_xml_entities_into_text_charwise_witness :
    "a&b<c>&amp;".toList.length ≤ 11
      ∧ substitute_xml_entities_into_text 11 "a&b<c>&amp;".toList
          = some "a&amp;b&lt;c&gt;&amp;amp;".toList :=
  ⟨by decide,
    (substitute_xml_entities_into_text_charwise 11 "a&b<c>&amp;".toList (by decide)).1⟩

/-- C2: evaluation at the failing input. The attribute of `<p title=a&quot;b>`
(value `a"b`, unquoted in the source) is wrapped in double quotes, and the
double quote inside the value is emitted as it is, so the text between the
wrappers contains the wrapping quote character. -/
theorem build_attributes_unquoted_keeps_dquote :
    build_attributes 3 title_attr false = some " title=\"a\"b\"".toList
      ∧ wrapping_quote title_attr = [DQUOTE]
      ∧ DQUOTE ∈ escape_attr_value (attribute_quote title_attr).1 title_attr.value := by
  decide

/-- C3: `build_attributes` returns a space, the serialized name, `=`, and the
value text between two copies of the wrapping quote `q`, where `q` is the
single quote exactly when the original source value begins with a single quote
and the double quote in every other case; an attribute with no value whose
original text does not begin with a single quote renders as `name=""`. -/
theorem build_attributes_wrapping_quote (fuel : Nat) (attr : GumboAttribute)
    (no_entities : Bool) (h : attr.value.length ≤ fuel) :
    build_attributes fuel attr no_entities
        = some (" ".toList ++ get_attribute_name attr ++ "=".toList
            ++ (if attr.original_value.data0 = SQUOTE then [SQUOTE] else [DQUOTE])
            ++ (if no_entities then attr.value
                else escape_attr_value (attribute_quote attr).1 attr.value)
            ++ (if attr.original_value.data0 = SQUOTE then [SQUOTE] else [DQUOTE]))
      ∧ (attr.value = [] → attr.original_value.data0 ≠ SQUOTE →
          build_attributes fuel attr no_entities
            = some (" ".toList ++ get_attribute_name attr ++ "=\"\"".toList)) := by
  have key := build_attributes_eq fuel attr no_entities h
  simp only [attribute_text, wrapping_quote] at key
  refine ⟨key, ?_⟩
  intro hv hq
  rw [key, hv, if_neg hq]
  have hesc : ∀ q : Char, escape_attr_value q [] = [] := by
    intro q
    unfold escape_attr_value
    split
    · rfl
    · split <;> rfl
  have e : "=\"\"".toList = "=".toList ++ [DQUOTE] ++ [DQUOTE] := by decide
  cases no_entities <;> simp [hesc, e] <;> decide

theorem build_attributes_wrapping_quote_witness :
    (src_attr.value.length ≤ 7
      ∧ build_attributes 7 src_attr false = some " src=\"foo.png\"".toList)
    ∧ (href_attr.value.length ≤ 1
      ∧ build_attributes 1 href_attr false = some " href=\x27x\x27".toList)
    ∧ (disabled_attr.value.length ≤ 0
      ∧ build_attributes 0 disabled_attr false = some " disabled=\"\"".toList) :=
  ⟨⟨by decide, (build_attributes_wrapping_quote 7 src_attr false (by decide)).1.trans
      (by decide)⟩,
    ⟨by decide, (build_attributes_wrapping_quote 1 href_attr false (by decide)).1.trans
      (by decide)⟩,
    ⟨by decide, (build_attributes_wrapping_quote 0 disabled_attr false (by decide)).2
      (by decide) (by decide)⟩⟩

/-- C4: an element (or template) whose resolved name is in `empty_tags` and
that has no children is printed as the indentation (only if not inline), then
`<name attrs/>`, then one newline (only if neither inline nor
whitespace-preserving); no closing tag follows. -/
theorem prettyprint_void_no_children (fuel : Nat) (node : GumboNode) (e : GumboElement)
    (hnode : node = .element e [] ∨ node = .template e [])
    (parentname : Str) (lvl : Int) (ind : Str) (c : Char)
    (hvoid : in_set empty_tags (get_element_tag_name e) = true)
    (hc : at0 ind = some c) (hlvl : 1 ≤ lvl)
    (hatts : ∀ a ∈ e.attributes, a.value.length ≤ fuel) :
    prettyprint fuel node parentname lvl ind
      = some ((if in_set nonbreaking_inline (get_element_tag_name e)
                  && !in_set structural_tags parentname
                then [] else List.replicate ((lvl - 1) * (ind.length : Int)).toNat c)
          ++ "<".toList ++ get_element_tag_name e
          ++ attributes_text (in_set no_entity_sub (get_element_tag_name e)) e.attributes
          ++ "/>".toList
          ++ (if !(in_set nonbreaking_inline (get_element_tag_name e)
                    && !in_set structural_tags parentname)
                  && !in_set preserve_whitespace (get_element_tag_name e)
                then [NEWLINE] else [])) := by
  have hcont := prettyprint_contents_no_children fuel node e hnode
    (contents_lvl (get_element_tag_name e) lvl) ind c hc
  have key := prettyprint_element_eq fuel node e [] hnode parentname lvl ind c _ []
    hc (string_fill_of_one_le lvl ind.length c hlvl) hatts hcont
  rw [key, trim_structural_nil, build_results_eq]
  have e1 : "/>".toList = "/".toList ++ ">".toList := by decide
  rw [e1]
  simp [hvoid]

theorem prettyprint_void_no_children_witness :
    (in_set empty_tags (get_element_tag_name (html_element "img".toList [src_attr])) = true
      ∧ prettyprint 7 img_node "p".toList 1 "  ".toList = some "<img src=\"foo.png\"/>".toList)
    ∧ (in_set empty_tags (get_element_tag_name (html_element "hr".toList [])) = true
      ∧ prettyprint 0 hr_node "body".toList 2 "  ".toList = some "  <hr/>\n".toList) :=
  ⟨⟨by decide,
      (prettyprint_void_no_children 7 img_node (html_element "img".toList [src_attr])
        (Or.inl rfl) "p".toList 1 "  ".toList ' ' (by decide) (by decide) (by decide)
        (by decide)).trans (by decide)⟩,
    ⟨by decide,
      (prettyprint_void_no_children 0 hr_node (html_element "hr".toList [])
        (Or.inl rfl) "body".toList 2 "  ".toList ' ' (by decide) (by decide) (by decide)
        (by decide)).trans (by decide)⟩⟩

/-- C5, counterexample: the element of `<spacer>x</spacer>` has a name in
`empty_tags`, and its text child is printed after `<spacer/>`; the output
differs from that of the same element without children. -/
theorem prettyprint_void_children_counterexample :
    in_set empty_tags (get_element_tag_name (html_element "spacer".toList [])) = true
      ∧ prettyprint 1 spacer_node "p".toList 1 "  ".toList = some "<spacer/>x\n".toList
      ∧ prettyprint 1 (.element (html_element "spacer".toList []) []) "p".toList 1 "  ".toList
          = some "<spacer/>\n".toList
      ∧ prettyprint 1 spacer_node "p".toList 1 "  ".toList
          ≠ prettyprint 1 (.element (html_element "spacer".toList []) []) "p".toList 1
              "  ".toList := by
  decide

/-- C5, amended: for an element (or template) whose resolved name is in
`empty_tags`, the tag is printed as `<name attrs/>` and no closing tag is
emitted, but the children the node carries are still printed after it: the
output is the indentation (if not inline), the tag, a newline (if the element
is structural, formatting is permitted and the contents are not empty), the
contents (right-trimmed and newline-terminated if structural), and the final
newline (if formatting is permitted). It equals the output for the same
element with no children when those contents are empty. -/
theorem prettyprint_void_children (fuel : Nat) (node node0 : GumboNode) (e : GumboElement)
    (cs : List GumboNode)
    (hnode : (node = .element e cs ∧ node0 = .element e [])
      ∨ (node = .template e cs ∧ node0 = .template e []))
    (parentname : Str) (lvl : Int) (ind : Str) (c : Char) (contents : Str)
    (hvoid : in_set empty_tags (get_element_tag_name e) = true)
    (hc : at0 ind = some c) (hlvl : 1 ≤ lvl)
    (hatts : ∀ a ∈ e.attributes, a.value.length ≤ fuel)
    (hcont : prettyprint_contents fuel node (contents_lvl (get_element_tag_name e) lvl) ind
      = some contents) :
    prettyprint fuel node parentname lvl ind
        = some ((if in_set nonbreaking_inline (get_element_tag_name e)
                    && !in_set structural_tags parentname
                  then [] else List.replicate ((lvl - 1) * (ind.length : Int)).toNat c)
            ++ "<".toList ++ get_element_tag_name e
            ++ attributes_text (in_set no_entity_sub (get_element_tag_name e)) e.attributes
            ++ "/>".toList
            ++ (if (!(in_set nonbreaking_inline (get_element_tag_name e)
                      && !in_set structural_tags parentname)
                    && !in_set preserve_whitespace (get_element_tag_name e)) = true
                  ∧ in_set structural_tags (get_element_tag_name e) = true
                  ∧ trim_structural (in_set structural_tags (get_element_tag_name e)) contents
                      ≠ []
                then [NEWLINE] else [])
            ++ trim_structural (in_set structural_tags (get_element_tag_name e)) contents
            ++ (if !(in_set nonbreaking_inline (get_element_tag_name e)
                      && !in_set structural_tags parentname)
                    && !in_set preserve_whitespace (get_element_tag_name e)
                  then [NEWLINE] else []))
      ∧ (trim_structural (in_set structural_tags (get_element_tag_name e)) contents = [] →
          prettyprint fuel node parentname lvl ind
            = prettyprint fuel node0 parentname lvl ind) := by
  have hn : node = .element e cs ∨ node = .template e cs := by
    rcases hnode with h | h
    · exact Or.inl h.1
    · exact Or.inr h.1
  have hn0 : node0 = .element e [] ∨ node0 = .template e [] := by
    rcases hnode with h | h
    · exact Or.inl h.2
    · exact Or.inr h.2
  have key := prettyprint_element_eq fuel node e cs hn parentname lvl ind c _ contents
    hc (string_fill_of_one_le lvl ind.length c hlvl) hatts hcont
  have hcont0 := prettyprint_contents_no_children fuel node0 e hn0
    (contents_lvl (get_element_tag_name e) lvl) ind c hc
  have key0 := prettyprint_element_eq fuel node0 e [] hn0 parentname lvl ind c _ []
    hc (string_fill_of_one_le lvl ind.length c hlvl) hatts hcont0
  have e1 : "/>".toList = "/".toList ++ ">".toList := by decide
  constructor
  · rw [key, build_results_eq, e1]
    cases hst : in_set structural_tags (get_element_tag_name e) with
    | false => simp [hvoid, trim_structural_false]
    | true =>
        by_cases hne : trim_structural true contents = []
        · simp [hvoid, hne]
        · have hl := trim_structural_getLastD contents hne
          rw [List.getLastD_eq_getLast?] at hl
          simp [hvoid, hne, hl]
  · intro hempty
    rw [key, key0, hempty, trim_structural_nil]

theorem prettyprint_void_children_witness :
    in_set empty_tags (get_element_tag_name (html_element "spacer".toList [])) = true
      ∧ prettyprint 1 spacer_node "p".toList 1 "  ".toList = some "<spacer/>x\n".toList :=
  ⟨by decide,
    (prettyprint_void_children 1 spacer_node (.element (html_element "spacer".toList []) [])
      (html_element "spacer".toList []) [.text "x".toList] (Or.inl ⟨rfl, rfl⟩) "p".toList 1
      "  ".toList ' ' "x".toList (by decide) (by decide) (by decide) (by decide)
      (by decide)).1.trans (by decide)⟩

/-- C6, counterexample: `script` is whitespace-preserving and its only child
is a Text node, yet the text between `<script>` and `</script>` is not the
child's data ` var x; `: it is indented, trimmed on both sides and followed by
a newline and the indentation of the close tag. -/
theorem prettyprint_script_counterexample :
    in_set preserve_whitespace (get_element_tag_name (html_element "script".toList [])) = true
      ∧ prettyprint 0 script_node "head".toList 2 "  ".toList
          = some "  <script>    var x;\n  </script>".toList
      ∧ prettyprint 0 script_node "head".toList 2 "  ".toList
          ≠ some ("  ".toList ++ "<script>".toList
              ++ children_text false [GumboNode.text " var x; ".toList]
              ++ "</script>".toList) := by
  decide

/-- C6, amended: for an element (or template) whose tag is whitespace-preserving
and whose children are all Text or Whitespace nodes: if the tag is not
structural (`pre`, `textarea`), the text between the open and the close tag is
exactly the concatenation of the children's data, Text data entity-escaped;
if the tag is structural too (`script`, `style`), the data is emitted raw but a
leading Text child is left-trimmed and indented, the contents are
right-trimmed and, when not empty, end with one newline followed by the
indentation of the close tag. -/
theorem prettyprint_preserve_whitespace (fuel : Nat) (node : GumboNode) (e : GumboElement)
    (cs : List GumboNode) (hnode : node = .element e cs ∨ node = .template e cs)
    (parentname : Str) (lvl : Int) (ind : Str) (c : Char)
    (hkeep : in_set preserve_whitespace (get_element_tag_name e) = true)
    (hall : cs.all is_text_or_whitespace = true)
    (hc : at0 ind = some c) (hlvl : 1 ≤ lvl)
    (hatts : ∀ a ∈ e.attributes, a.value.length ≤ fuel) :
    (in_set structural_tags (get_element_tag_name e) = false →
      (∀ s, GumboNode.text s ∈ cs → s.length ≤ fuel) →
      prettyprint fuel node parentname lvl ind
        = some ((if in_set nonbreaking_inline (get_element_tag_name e)
                    && !in_set structural_tags parentname
                  then [] else List.replicate ((lvl - 1) * (ind.length : Int)).toNat c)
            ++ "<".toList ++ get_element_tag_name e ++ attributes_text false e.attributes
            ++ ">".toList
            ++ children_text true cs
            ++ "</".toList ++ get_element_tag_name e ++ ">".toList))
    ∧ (in_set structural_tags (get_element_tag_name e) = true →
      prettyprint fuel node parentname lvl ind
        = some (List.replicate ((lvl - 1) * (ind.length : Int)).toNat c
            ++ "<".toList ++ get_element_tag_name e ++ attributes_text true e.attributes
            ++ ">".toList
            ++ trim_structural true
                (structural_raw_contents (List.replicate (lvl * (ind.length : Int)).toNat c) cs)
            ++ (if trim_structural true
                    (structural_raw_contents (List.replicate (lvl * (ind.length : Int)).toNat c)
                      cs) ≠ []
                then List.replicate ((lvl - 1) * (ind.length : Int)).toNat c else [])
            ++ "</".toList ++ get_element_tag_name e ++ ">".toList)) := by
  have hvoid := preserve_whitespace_not_void _ hkeep
  have hchildren : node.children = cs := by
    rcases hnode with rfl | rfl <;> rfl
  have htag : get_tag_name node = some (get_element_tag_name e) := by
    rcases hnode with rfl | rfl <;> rfl
  constructor
  · intro hst hfuel
    have hne := preserve_not_structural _ hkeep hst
    have hcont : prettyprint_contents fuel node (contents_lvl (get_element_tag_name e) lvl) ind
        = some (children_text true cs) := by
      simp only [prettyprint_contents, htag, hc, hchildren, Option.bind_eq_bind,
        Option.some_bind]
      rw [loop_preserve_text fuel _ _ ind c hkeep cs hall (fun _ => hfuel) 0 (Or.inl hst) []]
      simp [hne]
    have key := prettyprint_element_eq fuel node e cs hnode parentname lvl ind c _ _
      hc (string_fill_of_one_le lvl ind.length c hlvl) hatts hcont
    rw [key, build_results_eq, hst, trim_structural_false]
    simp [hvoid, hkeep, hne]
  · intro hst
    obtain ⟨hne, hinl, hhtml⟩ := preserve_structural _ hkeep hst
    have hl : contents_lvl (get_element_tag_name e) lvl = lvl + 1 := by
      simp only [contents_lvl, hst, hhtml, Bool.and_self, if_true]
    have hlm : lvl + 1 - 1 = lvl := by omega
    have hcont : prettyprint_contents fuel node (contents_lvl (get_element_tag_name e) lvl) ind
        = some (structural_raw_contents (List.replicate (lvl * (ind.length : Int)).toNat c)
            cs) := by
      simp only [prettyprint_contents, htag, hc, hchildren, Option.bind_eq_bind,
        Option.some_bind, hl]
      rw [loop_structural_raw fuel _ (lvl + 1) ind c hkeep hst (by omega) cs hall, hlm]
    have key := prettyprint_element_eq fuel node e cs hnode parentname lvl ind c _ _
      hc (string_fill_of_one_le lvl ind.length c hlvl) hatts hcont
    rw [key, build_results_eq, hst]
    by_cases hempty : trim_structural true
        (structural_raw_contents (List.replicate (lvl * (ind.length : Int)).toNat c) cs) = []
    · simp [hvoid, hkeep, hne, hinl, hempty]
    · simp [hvoid, hkeep, hne, hinl, hempty]

theorem prettyprint_preserve_whitespace_witness :
    (in_set preserve_whitespace (get_element_tag_name (html_element "pre".toList [])) = true
      ∧ prettyprint 6 pre_node "body".toList 2 "  ".toList
          = some "  <pre> a &lt; b\n</pre>".toList)
    ∧ (in_set preserve_whitespace (get_element_tag_name (html_element "script".toList []))
          = true
      ∧ prettyprint 0 script_node "head".toList 2 "  ".toList
          = some "  <script>    var x;\n  </script>".toList) :=
  ⟨⟨by decide,
      ((prettyprint_preserve_whitespace 6 pre_node (html_element "pre".toList []) _
        (Or.inl rfl) "body".toList 2 "  ".toList ' ' (by decide) (by decide) (by decide)
        (by decide) (by decide)).1 (by decide)
        (by intro s hs; simp at hs; subst hs; decide)).trans (by decide)⟩,
    ⟨by decide,
      ((prettyprint_preserve_whitespace 0 script_node (html_element "script".toList []) _
        (Or.inl rfl) "head".toList 2 "  ".toList ' ' (by decide) (by decide) (by decide)
        (by decide) (by decide)).2 (by decide)).trans (by decide)⟩⟩

/-- C7: an element (or template) whose tag is in the non-breaking inline set
and whose parent is not structural is printed as `<name attrs>` (with `/`
before `>` if void), then its rendered contents, then the closing tag (none if
void): no indentation before, no newline after the open tag or after the
closing tag. -/
theorem prettyprint_inline (fuel : Nat) (node : GumboNode) (e : GumboElement)
    (cs : List GumboNode) (hnode : node = .element e cs ∨ node = .template e cs)
    (parentname : Str) (lvl : Int) (ind : Str) (c : Char) (contents : Str)
    (hinl : in_set nonbreaking_inline (get_element_tag_name e) = true)
    (hpar : in_set structural_tags parentname = false)
    (hc : at0 ind = some c) (hlvl : 1 ≤ lvl)
    (hatts : ∀ a ∈ e.attributes, a.value.length ≤ fuel)
    (hcont : prettyprint_contents fuel node lvl ind = some contents) :
    prettyprint fuel node parentname lvl ind
      = some ("<".toList ++ get_element_tag_name e
          ++ attributes_text (in_set no_entity_sub (get_element_tag_name e)) e.attributes
          ++ (if in_set empty_tags (get_element_tag_name e) then "/".toList else [])
          ++ ">".toList
          ++ contents
          ++ (if in_set empty_tags (get_element_tag_name e) then []
              else "</".toList ++ get_element_tag_name e ++ ">".toList)) := by
  have hst := inline_not_structural _ hinl
  rw [← contents_lvl_not_structural (get_element_tag_name e) lvl hst] at hcont
  have key := prettyprint_element_eq fuel node e cs hnode parentname lvl ind c _ _
    hc (string_fill_of_one_le lvl ind.length c hlvl) hatts hcont
  rw [key, build_results_eq, hst, trim_structural_false]
  simp [hinl, hpar]

theorem prettyprint_inline_witness :
    (in_set nonbreaking_inline (get_element_tag_name (html_element "a".toList [href_attr]))
        = true
      ∧ in_set structural_tags "p".toList = false
      ∧ prettyprint 4 a_node "p".toList 2 "  ".toList
          = some "<a href=\x27x\x27>link</a>".toList)
    ∧ prettyprint 4 p_node "body".toList 2 "  ".toList
        = some "  <p><a href=\x27x\x27>link</a></p>\n".toList :=
  ⟨⟨by decide, by decide,
      (prettyprint_inline 4 a_node (html_element "a".toList [href_attr]) _ (Or.inl rfl)
        "p".toList 2 "  ".toList ' ' "link".toList (by decide) (by decide) (by decide)
        (by decide) (by decide) (by decide)).trans (by decide)⟩,
    by decide⟩

/-- C8: for a node whose children are `xs ++ ys` with `xs` not empty,
`prettyprint_contents` returns what it returns for the children `xs`, followed
by the pieces of `ys`, each child of `ys` rendered on its own by the rule for a
child that is not the first; and from index one on the piece of a child does
not depend on its index. -/
theorem prettyprint_contents_append (fuel : Nat) (node node_xs : GumboNode) (tagname : Str)
    (xs ys : List GumboNode) (lvl : Int) (ind : Str) (c : Char)
    (ht : get_tag_name node = some tagname) (ht2 : get_tag_name node_xs = some tagname)
    (hch : node.children = xs ++ ys) (hch2 : node_xs.children = xs)
    (hxs : xs ≠ []) (hc : at0 ind = some c) :
    prettyprint_contents fuel node lvl ind
        = (prettyprint_contents fuel node_xs lvl ind).bind (fun a =>
            (pieces fuel tagname lvl ind c ys).map (fun b => a ++ b))
      ∧ ∀ (i : Nat) (child : GumboNode), 1 ≤ i →
          child_piece fuel tagname lvl ind c i child
            = child_piece fuel tagname lvl ind c 1 child := by
  constructor
  · have hlen : 1 ≤ 0 + xs.length := by
      cases xs with
      | nil => exact absurd rfl hxs
      | cons x rest => simp
    simp only [prettyprint_contents, ht, ht2, hc, hch, hch2, Option.bind_eq_bind,
      Option.some_bind]
    rw [loop_append]
    congr 1
    funext a
    exact loop_eq_pieces fuel tagname lvl ind c ys (0 + xs.length) hlen a
  · intro i child hi
    exact child_piece_index fuel tagname lvl ind c i 1 hi (le_refl 1) child

theorem prettyprint_contents_append_witness :
    prettyprint_contents 2
        (div_with [.text " a".toList, .text " b".toList]) 2 "  ".toList
      = some "  a b".toList
    ∧ prettyprint_contents 2 (div_with [.text " a".toList]) 2 "  ".toList
      = some "  a".toList
    ∧ pieces 2 "div".toList 2 "  ".toList ' ' [.text " b".toList] = some " b".toList :=
  ⟨((prettyprint_contents_append 2 (div_with [.text " a".toList, .text " b".toList])
      (div_with [.text " a".toList]) "div".toList [.text " a".toList]
      [.text " b".toList] 2 "  ".toList ' ' (by decide) (by decide) rfl rfl
      (by simp) (by decide)).1).trans (by decide),
    by decide, by decide⟩

/-- C9, counterexample: a `span` whose parent is the structural `div` is not
inline in the sense `prettyprint` uses for the element itself (it is indented
and followed by a newline) and is not whitespace-preserving, yet
`prettyprint_contents` emits its Whitespace child. -/
theorem prettyprint_contents_whitespace_counterexample :
    (in_set nonbreaking_inline "span".toList && !in_set structural_tags "div".toList) = false
      ∧ in_set preserve_whitespace "span".toList = false
      ∧ prettyprint_contents 0 (span_with [.whitespace " ".toList]) 3 "  ".toList
          = some " ".toList
      ∧ prettyprint 0 (span_with [.whitespace " ".toList]) "div".toList 3 "  ".toList
          = some "    <span> </span>\n".toList := by
  decide

/-- C9, amended: for a Whitespace child, at any position of the children list,
`prettyprint_contents` emits the child's text verbatim if the tag of the
parent element is whitespace-preserving or is in the non-breaking inline set
(whatever the parent of that element is), and emits nothing for it otherwise;
the children before it and after it are rendered as without it. -/
theorem prettyprint_contents_whitespace_child (fuel : Nat) (node node_xs : GumboNode)
    (tagname : Str) (xs ys : List GumboNode) (s : Str) (lvl : Int) (ind : Str) (c : Char)
    (ht : get_tag_name node = some tagname) (ht2 : get_tag_name node_xs = some tagname)
    (hch : node.children = xs ++ GumboNode.whitespace s :: ys) (hch2 : node_xs.children = xs)
    (hc : at0 ind = some c) :
    prettyprint_contents fuel node lvl ind
      = (prettyprint_contents fuel node_xs lvl ind).bind (fun a =>
          (pieces fuel tagname lvl ind c ys).map (fun b =>
            a ++ (if in_set preserve_whitespace tagname || in_set nonbreaking_inline tagname
                  then s else [])
              ++ b)) := by
  simp only [prettyprint_contents, ht, ht2, hc, hch, hch2, Option.bind_eq_bind,
    Option.some_bind]
  rw [loop_append]
  congr 1
  funext a
  rw [loop_cons]
  have hp : child_piece fuel tagname lvl ind c (0 + xs.length) (GumboNode.whitespace s)
      = some (if in_set preserve_whitespace tagname || in_set nonbreaking_inline tagname
          then s else []) := by
    simp only [child_piece]
    split <;> rfl
  rw [hp, Option.some_bind]
  exact loop_eq_pieces fuel tagname lvl ind c ys (0 + xs.length + 1) (by omega) _

theorem prettyprint_contents_whitespace_child_witness :
    prettyprint_contents 0 (span_with [.whitespace " ".toList]) 3 "  ".toList
        = some " ".toList
      ∧ prettyprint_contents 0 (div_with [.whitespace " ".toList]) 3 "  ".toList
        = some [] :=
  ⟨(prettyprint_contents_whitespace_child 0 (span_with [.whitespace " ".toList])
      (span_with []) "span".toList [] [] " ".toList 3 "  ".toList ' '
      (by decide) (by decide) rfl rfl (by decide)).trans (by decide),
    (prettyprint_contents_whitespace_child 0 (div_with [.whitespace " ".toList])
      (div_with []) "div".toList [] [] " ".toList 3 "  ".toList ' '
      (by decide) (by decide) rfl rfl (by decide)).trans (by decide)⟩

/-- C10: `build_doctype` is empty without a doctype, is
`<!DOCTYPE name PUBLIC "public id"`, a newline, four spaces, `"system id">`
and a newline with a non-empty public identifier, and `<!DOCTYPE name>` and a
newline with an empty one; `prettyprint` on a document node returns this
preamble followed by the rendering of the children at depth `lvl + 1`, so at
depth 0 the `<` of a root element follows the preamble directly. -/
theorem build_doctype_reference (fuel : Nat) (d : GumboDocument) (cs : List GumboNode)
    (parentname : Str) (lvl : Int) (ind : Str) :
    (d.has_doctype = false → build_doctype d = [])
      ∧ (d.has_doctype = true → d.public_identifier ≠ [] →
          build_doctype d
            = "<!DOCTYPE ".toList ++ d.name ++ " PUBLIC \"".toList ++ d.public_identifier
              ++ "\"\n    \"".toList ++ d.system_identifier ++ "\">\n".toList)
      ∧ (d.has_doctype = true → d.public_identifier = [] →
          build_doctype d = "<!DOCTYPE ".toList ++ d.name ++ ">\n".toList)
      ∧ prettyprint fuel (.document d cs) parentname lvl ind
          = (prettyprint_contents fuel (.document d cs) (lvl + 1) ind).map
              (fun contents => build_doctype d ++ contents)
      ∧ (∀ (root : GumboNode) (e : GumboElement) (rcs rest : List GumboNode) (out : Str),
          root = .element e rcs ∨ root = .template e rcs → cs = root :: rest →
          prettyprint fuel (.document d cs) parentname 0 ind = some out →
          ∃ tail : Str,
            out = build_doctype d ++ ("<".toList ++ get_element_tag_name e ++ tail)) := by
  refine ⟨?_, ?_, ?_, prettyprint_document_eq fuel d cs parentname lvl ind, ?_⟩
  · intro h
    simp [build_doctype, h]
  · intro h hp
    have e1 : "\">\n".toList = "\"".toList ++ ">\n".toList := by decide
    simp [build_doctype, h, hp, e1]
  · intro h hp
    simp [build_doctype, h, hp]
  · intro root e rcs rest out hroot hcs hout
    rw [prettyprint_document_eq, hcs] at hout
    simp only [prettyprint_contents, get_tag_name, GumboNode.children, Option.bind_eq_bind,
      Option.some_bind, Option.map_eq_some', Option.bind_eq_some] at hout
    obtain ⟨contents, ⟨c, _, hloop⟩, hout⟩ := hout
    rw [loop_cons] at hloop
    have hpiece : child_piece fuel "#document".toList (0 + 1) ind c 0 root
        = prettyprint fuel root "#document".toList (0 + 1) ind := by
      rcases hroot with rfl | rfl <;> rfl
    rw [hpiece] at hloop
    simp only [Option.bind_eq_some] at hloop
    obtain ⟨r, hr, hrest⟩ := hloop
    rw [loop_acc] at hrest
    simp only [Option.map_eq_some'] at hrest
    obtain ⟨rest_text, _, hcontents⟩ := hrest
    obtain ⟨c2, atts, indent_space, rcontents, _, hfill, hrout⟩ :=
      prettyprint_element_inv fuel root e rcs hroot _ _ ind r hr
    have hindent : indent_space = [] := by
      simp [string_fill] at hfill
      exact hfill
    rw [build_results_eq, hindent] at hrout
    rw [← hout, ← hcontents, hrout]
    simp only [ite_self, List.nil_append, List.append_assoc]
    exact ⟨_, rfl⟩

theorem build_doctype_reference_witness :
    build_doctype xhtml_doctype
        = ("<!DOCTYPE html PUBLIC \"-//W3C//DTD XHTML 1.1//EN\"\n"
            ++ "    \"http://www.w3.org/TR/xhtml11/DTD/xhtml11.dtd\">\n").toList
      ∧ build_doctype html5_doctype = "<!DOCTYPE html>\n".toList
      ∧ prettyprint 4 (.document html5_doctype [.element html_root html_root_children]) []
          0 "  ".toList
        = some ("<!DOCTYPE html>\n<html>\n<body>\n"
            ++ "  <p><a href=\x27x\x27>link</a></p>\n</body>\n</html>\n").toList :=
  ⟨((build_doctype_reference 0 xhtml_doctype [] [] 0 []).2.1 rfl (by decide)).trans
      (by decide),
    ((build_doctype_reference 0 html5_doctype [] [] 0 []).2.2.1 rfl rfl).trans (by decide),
    by decide⟩

/-- C11: `get_attribute_name` returns the literal name prefixed by the string of
the attribute's namespace (none: nothing, xlink: `xlink:`, xml: `xml:`, xmlns:
`xmlns:`), except that the literal name `xmlns` is returned unprefixed in every
namespace; the literal name is always a suffix of the result. -/
theorem get_attribute_name_prefix (attr : GumboAttribute) :
    get_attribute_name attr
        = (if attr.name = "xmlns".toList then attr.name
            else attribute_nsprefixes attr.attr_namespace ++ attr.name)
      ∧ attribute_nsprefixes GumboAttributeNamespaceEnum.NONE = []
      ∧ attribute_nsprefixes GumboAttributeNamespaceEnum.XLINK = "xlink:".toList
      ∧ attribute_nsprefixes GumboAttributeNamespaceEnum.XML = "xml:".toList
      ∧ attribute_nsprefixes GumboAttributeNamespaceEnum.XMLNS = "xmlns:".toList
      ∧ attr.name <:+ get_attribute_name attr := by
  refine ⟨?_, rfl, rfl, rfl, rfl, ?_⟩
  · unfold get_attribute_name
    by_cases hx : attr.name = "xmlns".toList
    · simp [hx]
    · by_cases hn : attr.attr_namespace = GumboAttributeNamespaceEnum.NONE
      · simp [hx, hn, attribute_nsprefixes]
      · simp [hx, hn]
  · simp only [get_attribute_name]
    split
    · exact List.suffix_refl _
    · exact List.suffix_append _ _

/-- C12, counterexample: for the SVG-namespace element of `<SVG>` the lookup
finds no spelling, and `get_tag_name` returns the normalized name `svg`, not
the original source token text `SVG`. -/
theorem get_tag_name_svg_counterexample :
    svg_upper_element.tag_namespace = GumboNamespaceEnum.SVG
      ∧ svg_upper_element.svg_tagname = none
      ∧ get_tag_name (.element svg_upper_element []) = some "svg".toList
      ∧ svg_upper_element.original_tag.data.take svg_upper_element.original_tag.length
          = "SVG".toList
      ∧ get_tag_name (.element svg_upper_element [])
          ≠ some (svg_upper_element.original_tag.data.take
              svg_upper_element.original_tag.length) := by
  decide

/-- C12, amended: for an element or template node, `get_tag_name` returns the
normalized name when it is non-empty and the namespace is not SVG; for an
SVG-namespace element, the table's spelling cut to the length of the source
token when the lookup finds one, and, when the lookup finds none, the
normalized name if it is non-empty and the original source token text if it is
empty; and the original source token text when the namespace is not SVG and
the normalized name is empty. -/
theorem get_tag_name_element (node : GumboNode) (e : GumboElement) (cs : List GumboNode)
    (hnode : node = .element e cs ∨ node = .template e cs) :
    (e.tag_namespace ≠ GumboNamespaceEnum.SVG → e.normalized_tagname ≠ [] →
        get_tag_name node = some e.normalized_tagname)
      ∧ (∀ data : Str, e.tag_namespace = GumboNamespaceEnum.SVG → e.svg_tagname = some data →
        get_tag_name node = some (data.take e.original_tag.length))
      ∧ (e.tag_namespace = GumboNamespaceEnum.SVG → e.svg_tagname = none →
        e.normalized_tagname ≠ [] → get_tag_name node = some e.normalized_tagname)
      ∧ (e.tag_namespace = GumboNamespaceEnum.SVG → e.svg_tagname = none →
        e.normalized_tagname = [] →
        get_tag_name node = some (e.original_tag.data.take e.original_tag.length))
      ∧ (e.tag_namespace ≠ GumboNamespaceEnum.SVG → e.normalized_tagname = [] →
        get_tag_name node = some (e.original_tag.data.take e.original_tag.length)) := by
  have hname : get_tag_name node = some (get_element_tag_name e) := by
    rcases hnode with rfl | rfl <;> rfl
  rw [hname]
  refine ⟨?_, ?_, ?_, ?_, ?_⟩
  · intro hns hn
    simp [get_element_tag_name, hns, hn]
  · intro data hns hd
    simp [get_element_tag_name, hns, hd]
  · intro hns hd hn
    simp [get_element_tag_name, hns, hd, hn]
  · intro hns hd hn
    simp [get_element_tag_name, hns, hd, hn]
  · intro hns hn
    simp [get_element_tag_name, hns, hn]

theorem get_tag_name_element_witness :
    get_tag_name (.element (html_element "div".toList []) []) = some "div".toList
      ∧ get_tag_name (.element foreignobject_element []) = some "foreignObject".toList
      ∧ get_tag_name (.element svg_upper_element []) = some "svg".toList
      ∧ get_tag_name (.element unknown_element []) = some "my-tag".toList :=
  ⟨(get_tag_name_element _ (html_element "div".toList []) [] (Or.inl rfl)).1
      (by decide) (by decide),
    ((get_tag_name_element _ foreignobject_element [] (Or.inl rfl)).2.1 _ rfl rfl).trans
      (by decide),
    (get_tag_name_element _ svg_upper_element [] (Or.inl rfl)).2.2.1 rfl rfl (by decide),
    ((get_tag_name_element _ unknown_element [] (Or.inl rfl)).2.2.2.2 (by decide) rfl).trans
      (by decide)⟩

/-- C13: for an element (or template) whose tag is in the
no-entity-substitution set, printed at depth `lvl`: the output is the
indentation, `<name`, every attribute as a space, the name, `=` and the stored
value, copied unchanged, between the wrapping quotes, `>`, the contents
(right-trimmed and newline-terminated, these tags being structural), the
indentation if the contents are not empty, and the closing tag. In the
contents a Text child contributes its characters with no entity substitution:
at index 0 after the indentation and without its leading whitespace, at any
other index exactly as stored; when all children are Text or Whitespace nodes
the contents are the raw data of the children. The trims remove whitespace
only, so every `&`, `<` and `>` of the text is emitted as itself. -/
theorem no_entity_sub_raw (fuel : Nat) (node : GumboNode) (e : GumboElement)
    (cs : List GumboNode) (hnode : node = .element e cs ∨ node = .template e cs)
    (parentname : Str) (lvl : Int) (ind : Str) (c : Char)
    (hne : in_set no_entity_sub (get_element_tag_name e) = true)
    (hc : at0 ind = some c) (hlvl : 1 ≤ lvl) :
    (∀ contents : Str, prettyprint_contents fuel node (lvl + 1) ind = some contents →
        prettyprint fuel node parentname lvl ind
          = some (List.replicate ((lvl - 1) * (ind.length : Int)).toNat c
              ++ "<".toList ++ get_element_tag_name e ++ attributes_text true e.attributes
              ++ ">".toList
              ++ trim_structural true contents
              ++ (if trim_structural true contents ≠ []
                  then List.replicate ((lvl - 1) * (ind.length : Int)).toNat c else [])
              ++ "</".toList ++ get_element_tag_name e ++ ">".toList))
      ∧ (∀ a : GumboAttribute, attribute_text true a
          = " ".toList ++ get_attribute_name a ++ "=".toList ++ wrapping_quote a ++ a.value
            ++ wrapping_quote a)
      ∧ (∀ (node_xs : GumboNode) (xs ys : List GumboNode) (s : Str),
          get_tag_name node_xs = some (get_element_tag_name e) →
          cs = xs ++ GumboNode.text s :: ys → node_xs.children = xs →
          (xs = [] →
            prettyprint_contents fuel node (lvl + 1) ind
              = (pieces fuel (get_element_tag_name e) (lvl + 1) ind c ys).map (fun b =>
                  List.replicate (lvl * (ind.length : Int)).toNat c
                    ++ s.dropWhile is_whitespace_char ++ b))
          ∧ (xs ≠ [] →
            prettyprint_contents fuel node (lvl + 1) ind
              = (prettyprint_contents fuel node_xs (lvl + 1) ind).bind (fun a =>
                  (pieces fuel (get_element_tag_name e) (lvl + 1) ind c ys).map (fun b =>
                    a ++ s ++ b))))
      ∧ (cs.all is_text_or_whitespace = true →
          prettyprint fuel node parentname lvl ind
            = some (List.replicate ((lvl - 1) * (ind.length : Int)).toNat c
                ++ "<".toList ++ get_element_tag_name e ++ attributes_text true e.attributes
                ++ ">".toList
                ++ trim_structural true
                    (structural_raw_contents
                      (List.replicate (lvl * (ind.length : Int)).toNat c) cs)
                ++ (if trim_structural true
                        (structural_raw_contents
                          (List.replicate (lvl * (ind.length : Int)).toNat c) cs) ≠ []
                    then List.replicate ((lvl - 1) * (ind.length : Int)).toNat c else [])
                ++ "</".toList ++ get_element_tag_name e ++ ">".toList))
      ∧ (∀ (s : Str) (d : Char), d = '&' ∨ d = '<' ∨ d = '>' →
          (s.dropWhile is_whitespace_char).count d = s.count d)
      ∧ (∀ (contents : Str) (d : Char), d = '&' ∨ d = '<' ∨ d = '>' →
          (trim_structural true contents).count d = contents.count d) := by
  obtain ⟨hst, hkeep⟩ := no_entity_sub_cases _ hne
  have hchildren : node.children = cs := by
    rcases hnode with rfl | rfl <;> rfl
  have htag : get_tag_name node = some (get_element_tag_name e) := by
    rcases hnode with rfl | rfl <;> rfl
  have hlm : lvl + 1 - 1 = lvl := by omega
  have hws : ∀ d : Char, d = '&' ∨ d = '<' ∨ d = '>' → is_whitespace_char d = false := by
    intro d hd
    rcases hd with rfl | rfl | rfl <;> decide
  refine ⟨?_, fun a => ?_, ?_, ?_, ?_, ?_⟩
  · intro contents hcont
    exact prettyprint_no_entity_sub fuel node e cs hnode parentname lvl ind c contents
      hne hc hlvl hcont
  · simp [attribute_text]
  · intro node_xs xs ys s ht2 hcs hch2
    have hfuel : in_set no_entity_sub (get_element_tag_name e) = false → s.length ≤ fuel := by
      intro h
      rw [hne] at h
      exact absurd h (by decide)
    have htv : text_value (get_element_tag_name e) s = s := by
      simp [text_value, hne]
    have key := prettyprint_contents_text_child fuel node node_xs (get_element_tag_name e)
      xs ys s (lvl + 1) ind c htag ht2 (by rw [hchildren, hcs]) hch2 hc hfuel
    rw [htv] at key
    constructor
    · intro hxs
      have hnil := prettyprint_contents_nil fuel node_xs (get_element_tag_name e) (lvl + 1)
        ind c ht2 (by rw [hch2, hxs]) hc
      have hcond : xs.length = 0 ∧ in_set structural_tags (get_element_tag_name e) = true := by
        rw [hxs]; exact ⟨rfl, hst⟩
      rw [key, hnil, Option.some_bind, if_pos hcond,
        string_fill_of_one_le (lvl + 1) ind.length c (by omega), Option.some_bind,
        ltrim_eq_dropWhile, hlm]
      simp only [List.nil_append]
    · intro hxs
      have hcond : ¬ (xs.length = 0
          ∧ in_set structural_tags (get_element_tag_name e) = true) := by
        rintro ⟨h0, _⟩
        exact hxs (List.length_eq_zero.mp h0)
      rw [key]
      simp only [if_neg hcond]
  · intro hall
    have hcont : prettyprint_contents fuel node (lvl + 1) ind
        = some (structural_raw_contents (List.replicate (lvl * (ind.length : Int)).toNat c)
            cs) := by
      simp only [prettyprint_contents, htag, hc, hchildren, Option.bind_eq_bind,
        Option.some_bind]
      rw [loop_structural_raw fuel _ (lvl + 1) ind c hkeep hst (by omega) cs hall, hlm]
    exact prettyprint_no_entity_sub fuel node e cs hnode parentname lvl ind c _
      hne hc hlvl hcont
  · intro s d hd
    exact count_dropWhile_whitespace s d (hws d hd)
  · intro contents d hd
    exact count_trim_structural contents d (hws d hd)

theorem no_entity_sub_raw_witness :
    in_set no_entity_sub (get_element_tag_name raw_script_element) = true
      ∧ prettyprint 0 (.element raw_script_element [.text " if (a<b && c>d) x;\n".toList])
            "head".toList 2 "  ".toList
          = some "  <script title=\"a&b<c\">    if (a<b && c>d) x;\n  </script>".toList
      ∧ prettyprint_contents 0
            (.element raw_script_element [.comment "k".toList, .text " a<b ".toList]) 3
            "  ".toList
          = some "<!--k--> a<b ".toList :=
  ⟨by decide,
    ((no_entity_sub_raw 0 (.element raw_script_element [.text " if (a<b && c>d) x;\n".toList])
      raw_script_element _ (Or.inl rfl) "head".toList 2 "  ".toList ' ' (by decide)
      (by decide) (by decide)).2.2.2.1 (by decide)).trans (by decide),
    (((no_entity_sub_raw 0
      (.element raw_script_element [.comment "k".toList, .text " a<b ".toList])
      raw_script_element _ (Or.inl rfl) "head".toList 2 "  ".toList ' ' (by decide)
      (by decide) (by decide)).2.2.1 (.element raw_script_element [.comment "k".toList])
      [.comment "k".toList] [] " a<b ".toList (by decide) rfl rfl).2 (by simp)).trans
      (by decide)⟩

/-- C16: for a structural element (or template) that is neither void nor
whitespace-preserving, printed at depth `lvl`, the contents emitted are the
children's rendering with all trailing whitespace removed and one newline
appended if anything remains; when they are not empty the output is the
indentation, `<name attrs>`, a newline, the contents, the indentation,
`</name>` and a newline, and when they are empty it is the indentation,
`<name attrs></name>` and a newline. -/
theorem prettyprint_structural (fuel : Nat) (node : GumboNode) (e : GumboElement)
    (cs : List GumboNode) (hnode : node = .element e cs ∨ node = .template e cs)
    (parentname : Str) (lvl : Int) (ind : Str) (c : Char) (rendering : Str)
    (hst : in_set structural_tags (get_element_tag_name e) = true)
    (hvoid : in_set empty_tags (get_element_tag_name e) = false)
    (hkeep : in_set preserve_whitespace (get_element_tag_name e) = false)
    (hc : at0 ind = some c) (hlvl : 1 ≤ lvl)
    (hatts : ∀ a ∈ e.attributes, a.value.length ≤ fuel)
    (hcont : prettyprint_contents fuel node (contents_lvl (get_element_tag_name e) lvl) ind
      = some rendering) :
    prettyprint fuel node parentname lvl ind
      = some (if rendering.rdropWhile is_whitespace_char = [] then
            List.replicate ((lvl - 1) * (ind.length : Int)).toNat c
              ++ "<".toList ++ get_element_tag_name e ++ attributes_text false e.attributes
              ++ ">".toList
              ++ "</".toList ++ get_element_tag_name e ++ ">".toList ++ [NEWLINE]
          else
            List.replicate ((lvl - 1) * (ind.length : Int)).toNat c
              ++ "<".toList ++ get_element_tag_name e ++ attributes_text false e.attributes
              ++ ">".toList ++ [NEWLINE]
              ++ (rendering.rdropWhile is_whitespace_char ++ [NEWLINE])
              ++ List.replicate ((lvl - 1) * (ind.length : Int)).toNat c
              ++ "</".toList ++ get_element_tag_name e ++ ">".toList ++ [NEWLINE]) := by
  have hinl := structural_not_inline _ hst
  have hne := not_preserve_no_entity_sub _ hkeep
  have key := prettyprint_element_eq fuel node e cs hnode parentname lvl ind c _ _
    hc (string_fill_of_one_le lvl ind.length c hlvl) hatts hcont
  rw [key, build_results_eq, hst, trim_structural_true_eq]
  by_cases hempty : rendering.rdropWhile is_whitespace_char = []
  · simp [hempty, hvoid, hkeep, hinl, hne]
  · simp [hempty, hvoid, hkeep, hinl, hne, List.getLastD_eq_getLast?]

theorem prettyprint_structural_witness :
    prettyprint_contents 8 div_p_node 3 "  ".toList = some "    <p>Hi &amp; bye</p>\n".toList
      ∧ prettyprint 8 div_p_node "body".toList 2 "  ".toList
          = some "  <div>\n    <p>Hi &amp; bye</p>\n  </div>\n".toList :=
  ⟨by decide,
    (prettyprint_structural 8 div_p_node (html_element "div".toList []) _ (Or.inl rfl)
      "body".toList 2 "  ".toList ' ' "    <p>Hi &amp; bye</p>\n".toList
      (by decide) (by decide) (by decide) (by decide) (by decide) (by decide)
      (by decide)).trans (by decide)⟩

/-- C17: in the result of `prettyprint_contents` at depth `lvl` on a node whose
children are `xs`, then a Text node, then `ys`: if the Text node is at index 0
and the parent is structural, the result is the `(lvl-1)*n` indent characters,
then the text value (escaped, or raw when the parent suppresses escaping) with
all leading whitespace removed, then the pieces of `ys`; at an index of at
least one, or for a parent that is not structural, the result is that for
`xs`, then exactly the text value, then the pieces of `ys`. -/
theorem text_child_piece (fuel : Nat) (node node_xs : GumboNode) (tagname : Str)
    (xs ys : List GumboNode) (s : Str) (lvl : Int) (ind : Str) (c : Char)
    (ht : get_tag_name node = some tagname) (ht2 : get_tag_name node_xs = some tagname)
    (hch : node.children = xs ++ GumboNode.text s :: ys) (hch2 : node_xs.children = xs)
    (hc : at0 ind = some c)
    (hfuel : in_set no_entity_sub tagname = false → s.length ≤ fuel) :
    (xs = [] → in_set structural_tags tagname = true → 1 ≤ lvl →
        prettyprint_contents fuel node lvl ind
          = (pieces fuel tagname lvl ind c ys).map (fun b =>
              List.replicate ((lvl - 1) * (ind.length : Int)).toNat c
                ++ (text_value tagname s).dropWhile is_whitespace_char ++ b))
      ∧ (xs ≠ [] ∨ in_set structural_tags tagname = false →
        prettyprint_contents fuel node lvl ind
          = (prettyprint_contents fuel node_xs lvl ind).bind (fun a =>
              (pieces fuel tagname lvl ind c ys).map (fun b =>
                a ++ text_value tagname s ++ b)))
      ∧ (in_set no_entity_sub tagname = true → text_value tagname s = s)
      ∧ (in_set no_entity_sub tagname = false →
          text_value tagname s = escape_text_charwise s) := by
  have key := prettyprint_contents_text_child fuel node node_xs tagname xs ys s lvl ind c
    ht ht2 hch hch2 hc hfuel
  refine ⟨?_, ?_, ?_, ?_⟩
  · intro hxs hst hlvl
    have hnil := prettyprint_contents_nil fuel node_xs tagname lvl ind c ht2
      (by rw [hch2, hxs]) hc
    have hcond : xs.length = 0 ∧ in_set structural_tags tagname = true := by
      rw [hxs]; exact ⟨rfl, hst⟩
    rw [key, hnil, Option.some_bind, if_pos hcond,
      string_fill_of_one_le lvl ind.length c hlvl, Option.some_bind, ltrim_eq_dropWhile]
    simp only [List.nil_append]
  · intro h
    have hcond : ¬ (xs.length = 0 ∧ in_set structural_tags tagname = true) := by
      rintro ⟨h0, hs⟩
      rcases h with h | h
      · exact h (List.length_eq_zero.mp h0)
      · rw [h] at hs; exact absurd hs (by decide)
    rw [key]
    simp only [if_neg hcond]
  · intro h
    simp [text_value, h]
  · intro h
    simp [text_value, h]

theorem text_child_piece_witness :
    prettyprint_contents 7 (div_with [.text " a & b".toList]) 3 "  ".toList
        = some "    a &amp; b".toList
      ∧ prettyprint_contents 7 (div_with [.whitespace " ".toList, .text " a & b".toList]) 3
          "  ".toList
        = some " a &amp; b".toList
      ∧ prettyprint_contents 7 (span_with [.text " a & b".toList]) 3 "  ".toList
        = some " a &amp; b".toList :=
  ⟨((text_child_piece 7 (div_with [.text " a & b".toList]) (div_with []) "div".toList
      [] [] " a & b".toList 3 "  ".toList ' ' (by decide) (by decide) rfl rfl (by decide)
      (fun _ => by decide)).1 rfl (by decide) (by decide)).trans (by decide),
    ((text_child_piece 7 (div_with [.whitespace " ".toList, .text " a & b".toList])
      (div_with [.whitespace " ".toList]) "div".toList [.whitespace " ".toList] []
      " a & b".toList 3 "  ".toList ' ' (by decide) (by decide) rfl rfl (by decide)
      (fun _ => by decide)).2.1 (Or.inl (by simp))).trans (by decide),
    ((text_child_piece 7 (span_with [.text " a & b".toList]) (span_with []) "span".toList
      [] [] " a & b".toList 3 "  ".toList ' ' (by decide) (by decide) rfl rfl (by decide)
      (fun _ => by decide)).2.1 (Or.inr (by decide))).trans (by decide)⟩

/-- C15: when a document node is printed at depth 0 with a non-empty indent
unit (and a loop budget covering the tree), the run returns, and every call of
`prettyprint` it makes on an element (or template) of the tree, as logged by
the printer itself, has depth one plus the number `k` of the element's proper
ancestors that are structural elements other than `html`; that call returns,
and when the element is rendered non-inline its text begins with exactly
`n * k` copies of the first character of the indent unit (`n` being the unit's
length), followed by `<` and the tag name; the text is assembled from the
contents the printer takes at depth one plus the number of structural
ancestors other than `html` of the children. -/
theorem indentation_by_structural_ancestors (fuel : Nat) (d : GumboDocument)
    (cs : List GumboNode) (parentname : Str) (ind : Str) (c : Char)
    (hc : at0 ind = some c) (hfuel : text_bound (.document d cs) ≤ fuel) :
    ∃ (out : Str) (calls : List PrettyprintCall),
      prettyprint fuel (.document d cs) parentname 0 ind = some out
      ∧ prettyprint_traced fuel (.document d cs) [] 0 ind = some (out, calls)
      ∧ calls = prettyprint_calls (.document d cs) [] 0
      ∧ ∀ call ∈ calls,
          call.lvl = 1 + (structural_ancestors call.ancestors : Int)
          ∧ ∃ e ecs text, (call.node = .element e ecs ∨ call.node = .template e ecs)
            ∧ prettyprint fuel call.node (call.ancestors.headD []) call.lvl ind = some text
            ∧ ((in_set nonbreaking_inline (get_element_tag_name e)
                  && !in_set structural_tags (call.ancestors.headD [])) = false →
                ∃ tail : Str,
                  text = List.replicate (ind.length * structural_ancestors call.ancestors) c
                    ++ ("<".toList ++ get_element_tag_name e ++ tail))
            ∧ ∃ contents : Str,
                prettyprint_contents fuel call.node
                    (1 + (structural_ancestors (get_element_tag_name e :: call.ancestors) : Int))
                    ind = some contents
                ∧ text = build_results (get_element_tag_name e)
                    (attributes_text (in_set no_entity_sub (get_element_tag_name e))
                      e.attributes)
                    (if in_set empty_tags (get_element_tag_name e) then "/".toList else [])
                    (if in_set empty_tags (get_element_tag_name e) then []
                      else "</".toList ++ get_element_tag_name e ++ ">".toList)
                    (List.replicate (ind.length * structural_ancestors call.ancestors) c)
                    (trim_structural (in_set structural_tags (get_element_tag_name e))
                      contents)
                    (in_set nonbreaking_inline (get_element_tag_name e)
                      && !in_set structural_tags (call.ancestors.headD []))
                    (in_set structural_tags (get_element_tag_name e))
                    (!(in_set nonbreaking_inline (get_element_tag_name e)
                        && !in_set structural_tags (call.ancestors.headD []))
                      && !in_set preserve_whitespace (get_element_tag_name e)) := by
  obtain ⟨out, hout, htraced⟩ := prettyprint_traced_document fuel d cs parentname 0 ind c hc
    (le_refl 0) hfuel
  refine ⟨out, _, hout, htraced, rfl, ?_⟩
  intro call hcall
  rw [prettyprint_calls] at hcall
  have h0 : (0 : Int) + 1 = 1 + (structural_ancestors ["#document".toList] : Int) := by decide
  obtain ⟨hlvl, e, ecs, hnode⟩ := children_calls_depth cs _ 0 (0 + 1) call h0 hcall
  have hb := children_calls_bound cs _ 0 (0 + 1) call hcall
  rw [text_bound] at hfuel
  have h1 : 1 ≤ call.lvl := by omega
  have htotal : ∃ text, prettyprint fuel call.node (call.ancestors.headD []) call.lvl ind
      = some text := by
    have key := child_piece_total call.node fuel (call.ancestors.headD []) call.lvl ind c 1
      hc h1 (le_trans hb hfuel)
    rcases hnode with hn | hn <;> rw [hn] at key ⊢ <;> exact key
  obtain ⟨text, htext⟩ := htotal
  have hcount : (call.lvl - 1) * (ind.length : Int)
      = ((ind.length * structural_ancestors call.ancestors : Nat) : Int) := by
    rw [hlvl]
    push_cast
    ring
  have hfill : string_fill ((call.lvl - 1) * (ind.length : Int)) c
      = some (List.replicate (ind.length * structural_ancestors call.ancestors) c) := by
    rw [string_fill_of_one_le call.lvl ind.length c h1, hcount, Int.toNat_ofNat]
  have hchildren : children_text_bound ecs ≤ fuel := by
    have hb2 := le_trans hb hfuel
    rcases hnode with hn | hn <;> rw [hn, text_bound] at hb2 <;> omega
  have hattrs : ∀ a ∈ e.attributes, a.value.length ≤ fuel := by
    have hb2 := le_trans hb hfuel
    apply attrs_bound_le
    rcases hnode with hn | hn <;> rw [hn, text_bound] at hb2 <;> omega
  have hcl := structural_ancestors_cons (get_element_tag_name e) call.ancestors call.lvl hlvl
  obtain ⟨contents, hloop⟩ := loop_total ecs fuel (get_element_tag_name e)
    (contents_lvl (get_element_tag_name e) call.lvl) ind c 0 [] hc
    (le_trans h1 (contents_lvl_ge _ _)) hchildren
  have hcont : prettyprint_contents fuel call.node
      (contents_lvl (get_element_tag_name e) call.lvl) ind = some contents := by
    rcases hnode with hn | hn <;> rw [hn] <;>
    simp only [prettyprint_contents, get_tag_name, hc, GumboNode.children,
      Option.bind_eq_bind, Option.some_bind, hloop]
  have hres := prettyprint_element_eq fuel call.node e ecs hnode (call.ancestors.headD [])
    call.lvl ind c _ contents hc hfill hattrs hcont
  rw [htext] at hres
  have hres2 := Option.some.inj hres
  refine ⟨hlvl, e, ecs, text, hnode, htext, ?_, contents, ?_, hres2⟩
  · intro hinl
    rw [hres2, build_results_eq, hinl]
    simp only [Bool.false_eq_true, if_false, List.append_assoc]
    exact ⟨_, rfl⟩
  · rw [← hcl]
    exact hcont

theorem indentation_by_structural_ancestors_witness :
    (∃ (out : Str) (calls : List PrettyprintCall),
      prettyprint 4 sample_document [] 0 "  ".toList = some out
      ∧ prettyprint_traced 4 sample_document [] 0 "  ".toList = some (out, calls)
      ∧ div_call ∈ calls
      ∧ div_call.lvl = 1 + (structural_ancestors div_call.ancestors : Int))
    ∧ structural_ancestors div_call.ancestors = 1
    ∧ prettyprint 4 sample_document [] 0 "  ".toList
        = some ("<!DOCTYPE html>\n<html>\n<head></head>\n<body>\n  <div>\n"
            ++ "    <p><a href=\x27x\x27>link</a></p>\n  </div>\n</body>\n</html>\n").toList
    ∧ prettyprint 4 div_link_node "body".toList 2 "  ".toList
        = some "  <div>\n    <p><a href=\x27x\x27>link</a></p>\n  </div>\n".toList :=
  ⟨match indentation_by_structural_ancestors 4 html5_doctype sample_document_children []
        "  ".toList ' ' (by decide) (by decide) with
    | ⟨out, calls, h1, h2, h3, h4⟩ =>
      have hmem : div_call ∈ calls :=
        h3 ▸ List.Mem.tail _ (List.Mem.tail _ (List.Mem.tail _ (List.Mem.head _)))
      ⟨out, calls, h1, h2, hmem, (h4 div_call hmem).1⟩,
    by decide, by decide, by decide⟩

/-- C18: `prettyprint` terminates on every tree: the recursion over the tree
is structural, and once the loop budget covers the longest text or attribute
value of the tree the result no longer depends on the budget, whatever the
depth and the indent unit (a missing result is then an exception). With a
non-empty indent unit it returns a text for a document at a depth of at least
zero and for an element or template at a depth of at least one. Each of the
five `replace_all` loops of the escapers ends on every string within as many
iterations as the searched character occurs, with every occurrence replaced. -/
theorem prettyprint_terminates (fuel : Nat) (node : GumboNode) (parentname : Str) (lvl : Int)
    (ind : Str) (hfuel : text_bound node ≤ fuel) :
    (∀ fuel2 : Nat, text_bound node ≤ fuel2 →
        prettyprint fuel2 node parentname lvl ind = prettyprint fuel node parentname lvl ind)
      ∧ ((∃ d cs, node = .document d cs) → ind ≠ [] → 0 ≤ lvl →
        ∃ out, prettyprint fuel node parentname lvl ind = some out)
      ∧ ((∃ e cs, node = .element e cs ∨ node = .template e cs) → ind ≠ [] → 1 ≤ lvl →
        ∃ out, prettyprint fuel node parentname lvl ind = some out)
      ∧ (∀ (s : Str) (k : Nat), s.count '&' ≤ k →
        replace_all k s "&".toList "&amp;".toList = some (subst_char '&' "&amp;".toList s))
      ∧ (∀ (s : Str) (k : Nat), s.count '<' ≤ k →
        replace_all k s "<".toList "&lt;".toList = some (subst_char '<' "&lt;".toList s))
      ∧ (∀ (s : Str) (k : Nat), s.count '>' ≤ k →
        replace_all k s ">".toList "&gt;".toList = some (subst_char '>' "&gt;".toList s))
      ∧ (∀ (s : Str) (k : Nat), s.count DQUOTE ≤ k →
        replace_all k s [DQUOTE] "&quot;".toList
          = some (subst_char DQUOTE "&quot;".toList s))
      ∧ (∀ (s : Str) (k : Nat), s.count SQUOTE ≤ k →
        replace_all k s [SQUOTE] "&apos;".toList
          = some (subst_char SQUOTE "&apos;".toList s)) := by
  have hat : ind ≠ [] → ∃ c, at0 ind = some c := by
    intro hne
    cases ind with
    | nil => exact absurd rfl hne
    | cons x xs => exact ⟨x, rfl⟩
  refine ⟨?_, ?_, ?_, ?_, ?_, ?_, ?_, ?_⟩
  · intro fuel2 h2
    exact prettyprint_fuel node fuel2 fuel parentname lvl ind h2 hfuel
  · rintro ⟨d, cs, rfl⟩ hind h0
    obtain ⟨c, hc⟩ := hat hind
    rw [text_bound] at hfuel
    obtain ⟨contents, hcont⟩ := loop_total cs fuel "#document".toList (lvl + 1) ind c 0 []
      hc (by omega) hfuel
    refine ⟨build_doctype d ++ contents, ?_⟩
    rw [prettyprint_document_eq]
    simp only [prettyprint_contents, get_tag_name, hc, GumboNode.children,
      Option.bind_eq_bind, Option.some_bind, hcont, Option.map_some']
  · rintro ⟨e, cs, hnode⟩ hind h1
    obtain ⟨c, hc⟩ := hat hind
    have key := child_piece_total node fuel parentname lvl ind c 1 hc h1 hfuel
    rcases hnode with hn | hn <;> rw [hn] at key ⊢ <;> exact key
  · intro s k h
    exact replace_all_char '&' _ (by decide) (by decide) k s h
  · intro s k h
    exact replace_all_char '<' _ (by decide) (by decide) k s h
  · intro s k h
    exact replace_all_char '>' _ (by decide) (by decide) k s h
  · intro s k h
    exact replace_all_char DQUOTE _ (by decide) (by decide) k s h
  · intro s k h
    exact replace_all_char SQUOTE _ (by decide) (by decide) k s h

theorem prettyprint_terminates_witness :
    text_bound sample_document ≤ 4
      ∧ (∃ out, prettyprint 4 sample_document [] 0 "  ".toList = some out)
      ∧ replace_all 2 "a&&b".toList "&".toList "&amp;".toList = some "a&amp;&amp;b".toList
      ∧ replace_all 1 "a&&b".toList "&".toList "&amp;".toList = none :=
  ⟨by decide,
    (prettyprint_terminates 4 sample_document [] 0 "  ".toList (by decide)).2.1
      ⟨_, _, rfl⟩ (by decide) (by decide),
    ((prettyprint_terminates 4 sample_document [] 0 "  ".toList (by decide)).2.2.2.1
      "a&&b".toList 2 (by decide)).trans (by decide),
    by decide⟩

/-- C19: when `prettyprint` is entered on a document node with a depth of at
least zero (a non-empty indent unit and a loop budget covering the tree), the
run returns, so no fill is asked for a negative count; the call of
`prettyprint_contents` on the document has a depth of at least one, and every
call of `prettyprint` on an element logged by the run, with the call of
`prettyprint_contents` it makes, has a depth of at least one and at least the
depth of the call that reached it, so the fill counts `(lvl-1)*n` of lines
276 and 354 are not negative. -/
theorem depth_invariant (fuel : Nat) (d : GumboDocument) (cs : List GumboNode)
    (parentname : Str) (lvl : Int) (ind : Str) (h0 : 0 ≤ lvl) (hind : ind ≠ [])
    (hfuel : text_bound (.document d cs) ≤ fuel) :
    ∃ (out : Str) (calls : List PrettyprintCall),
      prettyprint fuel (.document d cs) parentname lvl ind = some out
      ∧ prettyprint_traced fuel (.document d cs) [] lvl ind = some (out, calls)
      ∧ calls = prettyprint_calls (.document d cs) [] lvl
      ∧ 1 ≤ lvl + 1
      ∧ ∀ call ∈ calls,
          1 ≤ call.lvl
          ∧ call.caller_lvl ≤ call.lvl
          ∧ lvl ≤ call.caller_lvl
          ∧ (∀ t : Str, 1 ≤ contents_lvl t call.lvl ∧ call.lvl ≤ contents_lvl t call.lvl)
          ∧ ∀ (n : Nat) (c : Char) (t : Str),
              0 ≤ (call.lvl - 1) * (n : Int)
              ∧ 0 ≤ (contents_lvl t call.lvl - 1) * (n : Int)
              ∧ string_fill ((call.lvl - 1) * (n : Int)) c
                  = some (List.replicate ((call.lvl - 1) * (n : Int)).toNat c)
              ∧ string_fill ((contents_lvl t call.lvl - 1) * (n : Int)) c
                  = some (List.replicate ((contents_lvl t call.lvl - 1) * (n : Int)).toNat
                      c) := by
  have hat : ∃ c, at0 ind = some c := by
    cases ind with
    | nil => exact absurd rfl hind
    | cons x xs => exact ⟨x, rfl⟩
  obtain ⟨c0, hc⟩ := hat
  obtain ⟨out, hout, htraced⟩ := prettyprint_traced_document fuel d cs parentname lvl ind c0
    hc h0 hfuel
  refine ⟨out, _, hout, htraced, rfl, by omega, ?_⟩
  intro call hcall
  rw [prettyprint_calls] at hcall
  obtain ⟨hle, hge, hcaller⟩ := children_calls_lvl cs _ lvl (lvl + 1) call (by omega) hcall
  have h1 : 1 ≤ call.lvl := by omega
  have hcl : ∀ t : Str, call.lvl ≤ contents_lvl t call.lvl := fun t => contents_lvl_ge t _
  have hnn : ∀ (x : Int) (n : Nat), 1 ≤ x → 0 ≤ (x - 1) * (n : Int) := by
    intro x n hx
    exact Int.mul_nonneg (by omega) (Int.ofNat_nonneg n)
  refine ⟨h1, hle, hcaller, fun t => ⟨le_trans h1 (hcl t), hcl t⟩, ?_⟩
  intro n c t
  exact ⟨hnn _ n h1, hnn _ n (le_trans h1 (hcl t)), string_fill_of_one_le _ n c h1,
    string_fill_of_one_le _ n c (le_trans h1 (hcl t))⟩

theorem depth_invariant_witness :
    (∃ (out : Str) (calls : List PrettyprintCall),
      prettyprint 4 sample_document [] 0 "  ".toList = some out
      ∧ prettyprint_traced 4 sample_document [] 0 "  ".toList = some (out, calls)
      ∧ div_call ∈ calls
      ∧ (1 : Int) ≤ div_call.lvl ∧ div_call.caller_lvl ≤ div_call.lvl)
    ∧ string_fill ((div_call.lvl - 1) * 2) ' ' = some "  ".toList
    ∧ string_fill ((0 - 1) * 2) ' ' = none
    ∧ prettyprint 4 div_link_node "body".toList 0 "  ".toList = none :=
  ⟨match depth_invariant 4 html5_doctype sample_document_children [] 0 "  ".toList
        (by decide) (by decide) (by decide) with
    | ⟨out, calls, h1, h2, h3, _, h5⟩ =>
      have hmem : div_call ∈ calls :=
        h3 ▸ List.Mem.tail _ (List.Mem.tail _ (List.Mem.tail _ (List.Mem.head _)))
      ⟨out, calls, h1, h2, hmem, (h5 div_call hmem).1, (h5 div_call hmem).2.1⟩,
    by decide, by decide, by decide⟩

/-- C20: escaping is lossless: for every text `t` and every quote argument `q`
(and a loop budget of at least the length of `t`), decoding the entities
`&lt;`, `&gt;`, `&quot;`, `&apos;` and `&amp;` in the result of
`substitute_xml_entities_into_text` and of
`substitute_xml_entities_into_attributes` gives back `t`; so two different
texts never have the same escaped text. -/
theorem escaping_lossless (fuel : Nat) (q : Char) (t : Str) (h : t.length ≤ fuel) :
    (substitute_xml_entities_into_text fuel t).map decode_entities = some t
      ∧ (substitute_xml_entities_into_attributes fuel q t).map decode_entities = some t
      ∧ (∀ t2 : Str, t2.length ≤ fuel →
          substitute_xml_entities_into_text fuel t = substitute_xml_entities_into_text fuel t2 →
          t = t2)
      ∧ (∀ t2 : Str, t2.length ≤ fuel →
          substitute_xml_entities_into_attributes fuel q t
            = substitute_xml_entities_into_attributes fuel q t2 →
          t = t2) := by
  refine ⟨?_, ?_, ?_, ?_⟩
  · rw [substitute_xml_entities_into_text_eq fuel t h, Option.map_some', decode_escape_text]
  · rw [substitute_xml_entities_into_attributes_eq fuel q t h, Option.map_some',
      decode_escape_attr]
  · intro t2 h2 heq
    rw [substitute_xml_entities_into_text_eq fuel t h,
      substitute_xml_entities_into_text_eq fuel t2 h2] at heq
    have := congrArg decode_entities (Option.some.inj heq)
    rwa [decode_escape_text, decode_escape_text] at this
  · intro t2 h2 heq
    rw [substitute_xml_entities_into_attributes_eq fuel q t h,
      substitute_xml_entities_into_attributes_eq fuel q t2 h2] at heq
    have := congrArg decode_entities (Option.some.inj heq)
    rwa [decode_escape_attr, decode_escape_attr] at this

theorem escaping_lossless_witness :
    substitute_xml_entities_into_attributes 9 DQUOTE "a&lt;\"b\x27&".toList
        = some "a&amp;lt;&quot;b\x27&amp;".toList
      ∧ decode_entities "a&amp;lt;&quot;b\x27&amp;".toList = "a&lt;\"b\x27&".toList
      ∧ (substitute_xml_entities_into_text 9 "a&lt;\"b\x27&".toList).map decode_entities
          = some "a&lt;\"b\x27&".toList :=
  ⟨by decide, by decide,
    (escaping_lossless 9 DQUOTE "a&lt;\"b\x27&".toList (by decide)).1⟩

end Prettyprint
